import Mathlib

/-!
Verification development for the WSLCB licensing tracker.

Shallow embedding of the data model and operations of the tracker's
source (`entities.py`, `endorsements.py`, `queries.py`, `parser.py`,
`pipeline.py`, `link_records.py`, `schema.py`, `database.py`), together
with theorems settling the frozen claims about the program.

Strings are modelled as `List Char` internally (with `String` wrappers
at the public boundary).  Python whitespace handling is modelled over
the whitespace characters the source actually meets (ASCII whitespace
plus NBSP); Python `str.upper` is modelled on ASCII letters.
-/

namespace Wslcb


/-- Whitespace as used by Python `str.strip` / regex `\s`, restricted to the
characters relevant here: space, tab, LF, CR, VT, FF and NBSP (`\xa0`). -/

def pyWsB (c : Char) : Bool :=
  c.toNat = 32 || c.toNat = 9 || c.toNat = 10 || c.toNat = 13 ||
  c.toNat = 11 || c.toNat = 12 || c.toNat = 160

/-- Python `str.upper`, modelled on ASCII letters (other characters are
returned unchanged). -/

def upChar (c : Char) : Char :=
  if 97 ≤ c.toNat ∧ c.toNat ≤ 122 then
    Char.ofNat (c.toNat - 32)
  else c

/-- `str.lstrip()`: drop leading whitespace. -/

def lstrip (s : List Char) : List Char := s.dropWhile pyWsB

/-- `str.rstrip()`: drop trailing whitespace. -/

def rstrip (s : List Char) : List Char := (s.reverse.dropWhile pyWsB).reverse

/-- `str.strip()`: drop leading and trailing whitespace. -/

def stripL (s : List Char) : List Char := rstrip (lstrip s)

/-- Worker for `collapse`: the flag records whether the previous character
was whitespace (in which case further whitespace is absorbed into the
already-emitted single space). -/

def collapseAux : Bool → List Char → List Char
  | _, [] => []
  | inWs, c :: rest =>
      if pyWsB c then
        if inWs then collapseAux true rest
        else ' ' :: collapseAux true rest
      else c :: collapseAux false rest

/-- `re.sub(r'\s+', ' ', s)`: collapse every run of whitespace to a single
space. -/

def collapse (s : List Char) : List Char := collapseAux false s

/-- The suffix whitelist of `entities._LEGIT_TRAILING_DOT`, one entry per
regex alternative (each is matched literally, followed by a period). -/

def LEGIT_SUFFIXES : List (List Char) :=
  ["INC", "LLC", "L.L.C", "L.L.P", "LTD", "CORP", "CO", "L.P", "PTY",
   "JR", "SR", "S.P.A", "F.O.E", "U.P", "D.B.A", "P.C", "N.A", "P.A",
   "W. & S"].map String.toList

/-- `entities._LEGIT_TRAILING_DOT.search(s)`:  after discarding trailing
whitespace (`\.\s*$`), the string must end in one of the whitelisted
suffixes followed by a period, with the character before the suffix being
whitespace or the start of the string (`(?<=\s)|(?<=^)`). -/

def legitTrailingDot (s : List Char) : Bool :=
  let s0 := rstrip s
  LEGIT_SUFFIXES.any fun t =>
    let tl := t ++ ['.']
    tl.isSuffixOf s0 &&
      (match (s0.take (s0.length - tl.length)).getLast? with
       | none => true
       | some c => pyWsB c)

/-- One test of the loop guard of `entities.clean_entity_name`:
the string is nonempty, ends in `.` or `,`, and the trailing token is not
a whitelisted suffix. -/

def punctGuard (s : List Char) : Bool :=
  match s.getLast? with
  | none => false
  | some c => (c = '.' || c = ',') && !legitTrailingDot s

/-- Fuelled worker for the `while` loop of `entities.clean_entity_name`
(each iteration strictly shortens the string, so `s.length + 1` fuel is
enough; fuel keeps the definition structurally recursive). -/

def stripPunctGo : Nat → List Char → List Char
  | 0, s => s
  | fuel + 1, s =>
      if punctGuard s then stripPunctGo fuel (rstrip s.dropLast)
      else s

/-- The `while` loop of `entities.clean_entity_name`: iteratively strip a
trailing `.` or `,` (then rstrip) unless the trailing token is a
whitelisted suffix. -/

def stripTrailingPunct (s : List Char) : List Char :=
  stripPunctGo (s.length + 1) s

/-- `entities.clean_entity_name` on `List Char`: strip, uppercase,
collapse whitespace runs, then strip stray trailing punctuation. -/

def cleanL (s : List Char) : List Char :=
  stripTrailingPunct (collapse ((stripL s).map upChar))

/-- `entities.clean_entity_name`. -/

def clean_entity_name (s : String) : String := ⟨cleanL s.data⟩

/-- Python `"...".split(";")`. -/

def splitSemi : List Char → List (List Char)
  | [] => [[]]
  | c :: rest =>
      if c = ';' then [] :: splitSemi rest
      else
        match splitSemi rest with
        | p :: ps => (c :: p) :: ps
        | [] => [[c]]

/-- Python `"; ".join(parts)`. -/

def joinParts : List (List Char) → List Char
  | [] => []
  | [p] => p
  | p :: ps => p ++ ';' :: ' ' :: joinParts ps

/-- Body of `entities.clean_applicants_string` for a non-empty string:
split on `;`, clean each part, drop empties, rejoin with `"; "`. -/

def cleanAppL (s : List Char) : List Char :=
  joinParts (((splitSemi s).map cleanL).filter (· ≠ []))

/-- `entities.clean_applicants_string` (`None`/empty inputs are returned
unchanged). -/

def clean_applicants_string : Option String → Option String
  | none => none
  | some s => if s.data = [] then some s else some ⟨cleanAppL s.data⟩

/-! ### Character-level facts used by the cleaning proofs -/

/-- The first character (if any) is not whitespace. -/

def NoLeadWs (s : List Char) : Prop := ∀ c, s.head? = some c → pyWsB c = false

/-- The last character (if any) is not whitespace. -/

def NoTrailWs (s : List Char) : Prop := ∀ c, s.getLast? = some c → pyWsB c = false

/-- Every whitespace character is a plain space, and no two whitespace
characters are adjacent. -/

def SpacedOk (s : List Char) : Prop :=
  (∀ c ∈ s, pyWsB c = true → c = ' ') ∧
  List.Chain' (fun a b => ¬(pyWsB a = true ∧ pyWsB b = true)) s

/-- Every character is fixed by `upChar`. -/

def UpFixed (s : List Char) : Prop := ∀ c ∈ s, upChar c = c

/-- Regex `\w` (word character), ASCII model. -/

def isWordChar (c : Char) : Bool := c.isAlphanum || c = '_'

/-- The finite expansion of the alternation in `entities._ORG_PATTERNS`:
every concrete string the group can match.  Optional periods
(`L\.?L\.?C\.?`, `INC\.?`, `CORP\.?`, `LTD\.?`, `L\.?P\.?`) are expanded
into all their combinations. -/

def ORG_TOKENS : List (List Char) :=
  ["LLC",
   "LLC.", "LL.C", "LL.C.", "L.LC", "L.LC.", "L.L.C", "L.L.C.",
   "INC", "INC.", "CORP", "CORP.", "CORPORATION", "TRUST",
   "LTD", "LTD.", "LIMITED", "PARTNERS", "PARTNERSHIP", "HOLDINGS",
   "GROUP", "ENTERPRISE", "ENTERPRISES", "ASSOCIATION", "FOUNDATION",
   "COMPANY", "CO.", "LP", "LP.", "L.P", "L.P."].map String.toList

/-- Does the token end in a literal period?  (Decides which form the
trailing `\b` takes: after a period, a word boundary requires a word
character to follow.) -/

def endsDot (t : List Char) : Bool := t.getLast? = some '.'

/-- One anchored attempt of `\b(token)\b` at the current scan position:
`prev` is the character just before the position (none at string start). -/

def tokenMatchFrom (prev : Option Char) (t s : List Char) : Bool :=
  t.isPrefixOf s &&
  (match prev with
   | none => true
   | some c => !isWordChar c) &&
  (if endsDot t then
    (match (s.drop t.length).head? with
     | some c => isWordChar c
     | none => false)
  else
    (match (s.drop t.length).head? with
     | some c => !isWordChar c
     | none => true))

/-- Scan of `re.search` over all start positions. -/

def orgSearchAux : Option Char → List Char → Bool
  | _, [] => false
  | prev, c :: rest =>
      ORG_TOKENS.any (fun t => tokenMatchFrom prev t (c :: rest)) ||
        orgSearchAux (some c) rest

/-- `entities._ORG_PATTERNS.search(s)` as a Boolean. -/

def orgSearch (s : List Char) : Bool := orgSearchAux none s

/-- `entities._classify_entity_type`. -/

def classify_entity_type (name : String) : String :=
  if orgSearch name.data then "organization" else "person"

/-- Declarative reading of the pattern match: the string decomposes as
`p ++ t ++ q` for some token, with a word boundary on each side. -/

def OrgTokenOccurs (s : List Char) : Prop :=
  ∃ p t q, s = p ++ t ++ q ∧ t ∈ ORG_TOKENS ∧
    (p = [] ∨ ∃ c, p.getLast? = some c ∧ isWordChar c = false) ∧
    (if endsDot t then ∃ c, q.head? = some c ∧ isWordChar c = true
     else q = [] ∨ ∃ c, q.head? = some c ∧ isWordChar c = false)

/-- The keyword set as the specification document words it (`INC` with an
optional period; the others literal). -/

def SPEC_ORG_KEYWORDS : List (List Char) :=
  ["LLC", "INC", "INC.", "CORP", "TRUST", "LTD", "PARTNERSHIP", "HOLDINGS",
   "GROUP", "ENTERPRISE", "ENTERPRISES", "ASSOCIATION", "FOUNDATION",
   "COMPANY", "CO.", "L.P."].map String.toList

/-- Whole-word containment of a spec keyword: the adjacent characters on
both sides (when present) are non-word characters. -/

def specTokenAt (prev : Option Char) (t s : List Char) : Bool :=
  t.isPrefixOf s &&
  (match prev with
   | none => true
   | some c => !isWordChar c) &&
  (match (s.drop t.length).head? with
   | none => true
   | some c => !isWordChar c)

/-- Scan for a whole-word spec keyword at any position. -/

def specSearchAux : Option Char → List Char → Bool
  | _, [] => false
  | prev, c :: rest =>
      SPEC_ORG_KEYWORDS.any (fun t => specTokenAt prev t (c :: rest)) ||
        specSearchAux (some c) rest

/-- Does the name contain one of the specification's keywords as a whole
word? -/

def containsSpecKeyword (s : List Char) : Bool := specSearchAux none s

/-- A record dict. -/

abbrev RecD := List (String × String)

/-- `d.get(k)` (None when absent). -/

def dget (d : RecD) (k : String) : Option String :=
  (d.find? (·.1 = k)).map (·.2)

/-- `d.get(k, "")`, also the truthiness carrier (`""` is falsy, like a
missing key). -/

def dgetD (d : RecD) (k : String) : String := (dget d k).getD ""

/-- `d[k] = v`. -/

def dset (d : RecD) (k v : String) : RecD :=
  if d.any (·.1 = k) then d.map (fun kv => if kv.1 = k then (k, v) else kv)
  else d ++ [(k, v)]

/-- `parser.DATE_FIELD_MAP`. -/

def date_field (section_type : String) : String :=
  if section_type = "new_application" then "Notification Date:"
  else if section_type = "approved" then "Approved Date:"
  else if section_type = "discontinued" then "Discontinued Date:"
  else ""

/-! ### Date normalization (`parser.normalize_date`) -/

/-- Gregorian leap year. -/

def isLeap (y : Nat) : Bool := y % 4 = 0 && (y % 100 ≠ 0 || y % 400 = 0)

/-- Days in a month. -/

def daysInMonth (y m : Nat) : Nat :=
  if m = 2 then (if isLeap y then 29 else 28)
  else if m = 4 || m = 6 || m = 9 || m = 11 then 30
  else 31

def isAsciiDigit (c : Char) : Bool := 48 ≤ c.toNat && c.toNat ≤ 57

def digitsToNat (s : List Char) : Nat :=
  s.foldl (fun acc c => acc * 10 + (c.toNat - 48)) 0

/-- Render a natural number zero-padded to `w` digits. -/

def padNat (w n : Nat) : List Char :=
  let rec go (fuel n : Nat) (acc : List Char) : List Char :=
    match fuel with
    | 0 => acc
    | fuel + 1 =>
        if n = 0 then acc
        else go fuel (n / 10) (Char.ofNat (48 + n % 10) :: acc)
  let ds := if n = 0 then ['0'] else go (n + 1) n []
  List.replicate (w - ds.length) '0' ++ ds

/-- Format an ISO date `YYYY-MM-DD` (zero padded). -/

def fmtIso (y m d : Nat) : List Char :=
  padNat 4 y ++ '-' :: (padNat 2 m ++ '-' :: padNat 2 d)

/-- `datetime.strptime(s, "%m/%d/%Y")`: one or two digits for month and
day, one to four digits for the year, and a calendar-valid date. -/

def parseMdy (s : List Char) : Option (Nat × Nat × Nat) :=
  match splitSemiBy '/' s with
  | [ms, ds, ys] =>
      if ms ≠ [] && ms.length ≤ 2 && ms.all isAsciiDigit &&
         ds ≠ [] && ds.length ≤ 2 && ds.all isAsciiDigit &&
         ys ≠ [] && ys.length ≤ 4 && ys.all isAsciiDigit then
        let m := digitsToNat ms
        let d := digitsToNat ds
        let y := digitsToNat ys
        if 1 ≤ m && m ≤ 12 && 1 ≤ d && d ≤ daysInMonth y m then
          some (y, m, d)
        else none
      else none
  | _ => none
where
  splitSemiBy (sep : Char) : List Char → List (List Char)
    | [] => [[]]
    | c :: rest =>
        if c = sep then [] :: splitSemiBy sep rest
        else
          match splitSemiBy sep rest with
          | p :: ps => (c :: p) :: ps
          | [] => [[c]]

/-- `parser.normalize_date`: convert `M/D/YYYY` to `YYYY-MM-DD`;
unparseable values pass through (stripped). -/

def normalize_date (s : String) : String :=
  if s.data = [] then s
  else
    match parseMdy (stripL s.data) with
    | some (y, m, d) => ⟨fmtIso y m d⟩
    | none => ⟨stripL s.data⟩

/-- The fresh dict built when a date row starts a new record. -/

def newRecord (section_type record_date scraped_at : String) : RecD :=
  [("section_type", section_type), ("record_date", record_date),
   ("business_name", ""), ("business_location", ""), ("applicants", ""),
   ("license_type", ""), ("application_type", ""), ("license_number", ""),
   ("contact_phone", ""), ("city", ""), ("state", "WA"), ("zip_code", ""),
   ("previous_business_name", ""), ("previous_applicants", ""),
   ("previous_business_location", ""), ("previous_city", ""),
   ("previous_state", ""), ("previous_zip_code", ""),
   ("scraped_at", scraped_at)]

/-- The label dispatch of the row loop (all non-date labels). -/

def applyLabel (parseLoc : String → String × String × String)
    (current : RecD) (label value : String) : RecD :=
  if label = "Business Name:" then dset current "business_name" value
  else if label = "New Business Name:" then dset current "business_name" value
  else if label = "Current Business Name:" then
    dset current "previous_business_name" value
  else if label = "Business Location:" || label = "New Business Location:" then
    let (city, state, zip) := parseLoc value
    dset (dset (dset (dset current "business_location" value)
      "city" city) "state" state) "zip_code" zip
  else if label = "Current Business Location:" then
    let (city, state, zip) := parseLoc value
    dset (dset (dset (dset current "previous_business_location" value)
      "previous_city" city) "previous_state" state) "previous_zip_code" zip
  else if label = "Applicant(s):" || label = "New Applicant(s):" then
    dset current "applicants" value
  else if label = "Current Applicant(s):" then
    dset current "previous_applicants" value
  else if label = "License Type:" then dset current "license_type" value
  else if label = "Application Type:" || label = "\\Application Type:" then
    dset current "application_type" value
  else if label = "License Number:" then dset current "license_number" value
  else if label = "Contact Phone:" then dset current "contact_phone" value
  else current

/-- The row loop: a row whose label equals the section's date field closes
the current record (kept only when its license_number is truthy) and
starts a new one; the final record is closed the same way at the end. -/

def parseRowsGo (dfield section_type scraped_at : String)
    (parseLoc : String → String × String × String) :
    List (Option (String × String)) → RecD → List RecD
  | [], current =>
      if dgetD current "license_number" ≠ "" then [current] else []
  | none :: rows, current => parseRowsGo dfield section_type scraped_at parseLoc rows current
  | some (label, value) :: rows, current =>
      if label = dfield then
        (if dgetD current "license_number" ≠ "" then [current] else []) ++
          parseRowsGo dfield section_type scraped_at parseLoc rows
            (newRecord section_type (normalize_date value) scraped_at)
      else
        parseRowsGo dfield section_type scraped_at parseLoc rows
          (applyLabel parseLoc current label value)

/-- `parser.parse_records_from_table`. -/

def parse_records_from_table (rows : List (Option (String × String)))
    (section_type scraped_at : String)
    (parseLoc : String → String × String × String) : List RecD :=
  parseRowsGo (date_field section_type) section_type scraped_at parseLoc rows []

/-- `parser._ISO_DATE_RE` core: exactly `\d{4}-\d{2}-\d{2}`. -/

def isoCore : List Char → Bool
  | [a, b, c, d, e, f, g, h, i, j] =>
      isAsciiDigit a && isAsciiDigit b && isAsciiDigit c && isAsciiDigit d &&
      e = '-' && isAsciiDigit f && isAsciiDigit g && h = '-' &&
      isAsciiDigit i && isAsciiDigit j
  | _ => false

/-- `_ISO_DATE_RE.match(s)`: `$` also matches just before a final
newline. -/

def isoDateMatch (s : List Char) : Bool :=
  isoCore s || (s.getLast? = some '\n' && isoCore s.dropLast)

/-- `parser.is_valid_record`. -/

def is_valid_record (r : RecD) : Bool :=
  dgetD r "section_type" ≠ "" && dgetD r "record_date" ≠ "" &&
  isoDateMatch (dgetD r "record_date").data &&
  dgetD r "license_number" ≠ "" && dgetD r "application_type" ≠ ""

/-- The four-column natural key of a parsed record. -/

def natKeyD (r : RecD) : String × String × String × String :=
  (dgetD r "section_type", dgetD r "record_date",
   dgetD r "license_number", dgetD r "application_type")

/-- The `primary` dict of `extract_records_from_diff`, keyed by natural
key (insertion ordered, `setdefault` semantics). -/

abbrev KeyMap := List ((String × String × String × String) × RecD)

/-- `primary.setdefault(key, rec)`. -/

def kmSetdefault (m : KeyMap) (k : String × String × String × String)
    (r : RecD) : KeyMap :=
  if m.any (·.1 = k) then m else m ++ [(k, r)]

/-- `key in primary`. -/

def kmHasKey (m : KeyMap) (k : String × String × String × String) : Bool :=
  m.any (·.1 = k)

/-- `list(primary.values())`. -/

def kmValues (m : KeyMap) : List RecD := m.map (·.2)

/-- One record of the primary pass: valid records get their `scraped_at`
stamped and enter the map; invalid records with a license_number flag a
hunk-boundary artifact. -/

def primStep (ts : String) (st : KeyMap × Bool) (r : RecD) : KeyMap × Bool :=
  if is_valid_record r then
    let r2 := dset r "scraped_at" ts
    (kmSetdefault st.1 (natKeyD r2) r2, st.2)
  else if dgetD r "license_number" ≠ "" then (st.1, true)
  else st

/-- The primary pass over the `+` lines then the `-` lines. -/

def primPass (parseLines : List String → List RecD)
    (added removed : List String) (new_ts old_ts : String) : KeyMap × Bool :=
  (parseLines removed).foldl (primStep old_ts)
    ((parseLines added).foldl (primStep new_ts) ([], false))

/-- One record of the supplemental pass: accepted only when its natural
key is absent from the accumulated map. -/

def suppStep (ts : String) (m : KeyMap) (r : RecD) : KeyMap :=
  if is_valid_record r then
    let k := natKeyD r
    if kmHasKey m k then m
    else kmSetdefault m k (dset r "scraped_at" ts)
  else m

/-- The supplemental pass over both context-inclusive sides. -/

def suppPass (parseLines : List String → List RecD)
    (new_ctx old_ctx : List String) (new_ts old_ts : String)
    (m : KeyMap) : KeyMap :=
  (parseLines old_ctx).foldl (suppStep old_ts)
    ((parseLines new_ctx).foldl (suppStep new_ts) m)

/-- `parser.extract_records_from_diff` (from the point where
`split_diff_lines` has produced the four line groups and the two
timestamps). -/

def extract_records_from_diff (parseLines : List String → List RecD)
    (added removed new_ctx old_ctx : List String)
    (old_ts new_ts : String) : List RecD :=
  let st := primPass parseLines added removed new_ts old_ts
  if !st.2 then kmValues st.1
  else kmValues (suppPass parseLines new_ctx old_ctx new_ts old_ts st.1)

structure Location where
  id : Nat
  raw_address : String
  city : String
  state : String
  zip_code : String
deriving Repr, DecidableEq

structure LRecord where
  id : Nat
  section_type : String
  record_date : String
  business_name : String
  location_id : Option Nat
  applicants : String
  license_type : String
  application_type : String
  license_number : String
  contact_phone : String
  previous_business_name : String
  previous_applicants : String
  previous_location_id : Option Nat
  scraped_at : String
deriving Repr, DecidableEq

structure Entity where
  id : Nat
  name : String
  entity_type : String
deriving Repr, DecidableEq

structure RecEntity where
  record_id : Nat
  entity_id : Nat
  role : String
  position : Nat
deriving Repr, DecidableEq

structure Endorsement where
  id : Nat
  name : String
deriving Repr, DecidableEq

structure EndoCode where
  code : String
  endorsement_id : Nat
deriving Repr, DecidableEq

structure RecEndorsement where
  record_id : Nat
  endorsement_id : Nat
deriving Repr, DecidableEq

structure RecSource where
  record_id : Nat
  source_id : Nat
  role : String
deriving Repr, DecidableEq

structure RecLink where
  new_app_id : Nat
  outcome_id : Nat
  confidence : String
  days_gap : Option Int
deriving Repr, DecidableEq

structure DB where
  locations : List Location
  records : List LRecord
  entities : List Entity
  record_entities : List RecEntity
  endorsements : List Endorsement
  endorsement_codes : List EndoCode
  record_endorsements : List RecEndorsement
  record_sources : List RecSource
  record_links : List RecLink
  next_location_id : Nat
  next_record_id : Nat
  next_entity_id : Nat
  next_endorsement_id : Nat
deriving Repr, DecidableEq

/-- The empty database. -/

def DB.empty : DB := ⟨[], [], [], [], [], [], [], [], [], 1, 1, 1, 1⟩

/-! ### Locations (`database.py`) -/

/-- Worker for `database._normalize_raw_address`
(`re.sub(r'\xa0+', ' ', raw)`): each maximal run of NBSP becomes one
space. -/

def nbspAux : Bool → List Char → List Char
  | _, [] => []
  | inRun, c :: rest =>
      if c.toNat = 160 then
        if inRun then nbspAux true rest
        else ' ' :: nbspAux true rest
      else c :: nbspAux false rest

/-- `database._normalize_raw_address`. -/

def normalize_raw_address (s : String) : String := ⟨nbspAux false s.data⟩

/-- `database.get_or_create_location`. -/

def get_or_create_location (db : DB) (raw_address city state zip_code : String) :
    Option Nat × DB :=
  if raw_address = "" || stripL raw_address.data = [] then (none, db)
  else
    let normalized := normalize_raw_address raw_address
    match db.locations.find? (·.raw_address = normalized) with
    | some loc => (some loc.id, db)
    | none =>
        (some db.next_location_id,
         { db with
            locations := db.locations ++
              [⟨db.next_location_id, normalized, city, state, zip_code⟩],
            next_location_id := db.next_location_id + 1 })

/-! ### Entities (`entities.py`) -/

/-- `entities.get_or_create_entity`; `none` models the `ValueError` on an
empty cleaned name. -/

def get_or_create_entity (db : DB) (name : String) : Option Nat × DB :=
  let normalized := clean_entity_name name
  if normalized = "" then (none, db)
  else
    match db.entities.find? (·.name = normalized) with
    | some e => (some e.id, db)
    | none =>
        (some db.next_entity_id,
         { db with
            entities := db.entities ++
              [⟨db.next_entity_id, normalized, classify_entity_type normalized⟩],
            next_entity_id := db.next_entity_id + 1 })

/-- The loop of `entities.parse_and_link_entities`: skipped names
(`ValueError`) leave no position gap; `INSERT OR IGNORE` on the
`(record_id, entity_id, role)` primary key contributes `rowcount`. -/

def linkEntityLoop (db : DB) (record_id : Nat) (role : String) :
    List String → Nat → Nat × DB
  | [], linked => (linked, db)
  | name :: names, linked =>
      match get_or_create_entity db name with
      | (none, db') => linkEntityLoop db' record_id role names linked
      | (some eid, db') =>
          if db'.record_entities.any fun re =>
              re.record_id = record_id && re.entity_id = eid && re.role = role then
            linkEntityLoop db' record_id role names linked
          else
            linkEntityLoop
              { db' with record_entities := db'.record_entities ++
                  [⟨record_id, eid, role, linked⟩] }
              record_id role names (linked + 1)

/-- `entities.parse_and_link_entities`. -/

def parse_and_link_entities (db : DB) (record_id : Nat)
    (applicants_str : String) (role : String) : Nat × DB :=
  if applicants_str = "" || !applicants_str.data.contains ';' then (0, db)
  else
    let parts := (splitSemi applicants_str.data).map
      fun p => (⟨stripL p⟩ : String)
    let names := (parts.drop 1).filter (· ≠ "")
    linkEntityLoop db record_id role names 0

/-- `entities.clean_applicants_string` applied to the always-a-string
`record.get(..., "")` values of `insert_record`. -/

def cleanAppStr (s : String) : String :=
  if s.data = [] then s else ⟨cleanAppL s.data⟩

/-! ### Record insert (`queries.insert_record`) -/

/-- The four-column duplicate check of `queries.insert_record`. -/

def recordNatKeyMatches (r : RecD) (lr : LRecord) : Bool :=
  lr.section_type = dgetD r "section_type" &&
  lr.record_date = dgetD r "record_date" &&
  lr.license_number = dgetD r "license_number" &&
  lr.application_type = dgetD r "application_type"

/-- `queries.insert_record`: duplicate check first, then location
resolution, name cleaning, row insert, entity linking. -/

def insert_record (db : DB) (record : RecD) : Option (Nat × Bool) × DB :=
  match db.records.find? (recordNatKeyMatches record) with
  | some lr => (some (lr.id, false), db)
  | none =>
      let r1 := get_or_create_location db
        (dgetD record "business_location") (dgetD record "city")
        ((dget record "state").getD "WA") (dgetD record "zip_code")
      let r2 := get_or_create_location r1.2
        (dgetD record "previous_business_location")
        (dgetD record "previous_city") (dgetD record "previous_state")
        (dgetD record "previous_zip_code")
      let cleaned_biz := clean_entity_name (dgetD record "business_name")
      let cleaned_prev_biz :=
        clean_entity_name (dgetD record "previous_business_name")
      let cleaned_applicants := cleanAppStr (dgetD record "applicants")
      let cleaned_prev_applicants :=
        cleanAppStr (dgetD record "previous_applicants")
      let rid := r2.2.next_record_id
      let db3 := { r2.2 with
        records := r2.2.records ++
          [⟨rid, dgetD record "section_type", dgetD record "record_date",
            cleaned_biz, r1.1, cleaned_applicants,
            dgetD record "license_type", dgetD record "application_type",
            dgetD record "license_number", dgetD record "contact_phone",
            cleaned_prev_biz, cleaned_prev_applicants, r2.1,
            dgetD record "scraped_at"⟩],
        next_record_id := rid + 1 }
      let db4 := (parse_and_link_entities db3 rid cleaned_applicants "applicant").2
      let db5 :=
        if cleaned_prev_applicants ≠ "" then
          (parse_and_link_entities db4 rid cleaned_prev_applicants
            "previous_applicant").2
        else db4
      (some (rid, true), db5)

/-- A one-record store used by the C1 witness. -/

def dbW : DB :=
  { DB.empty with
      records := [⟨1, "approved", "2025-06-10", "", none, "", "", "RENEWAL",
        "360123", "", "", "", none, "t"⟩],
      next_record_id := 2 }

/-- The duplicate record dict used by the C1 witness. -/

def recW : RecD :=
  [("section_type", "approved"), ("record_date", "2025-06-10"),
   ("license_number", "360123"), ("application_type", "RENEWAL"),
   ("business_location", "123 MAIN ST, SEATTLE, WA 98101")]

/-- Python `str.upper` on a whole string (ASCII model, as `upChar`). -/

def toUpperStr (s : String) : String := ⟨s.data.map upChar⟩

/-- `endorsements._ensure_endorsement`: uppercase, look up by name,
insert if absent. -/

def ensure_endorsement (db : DB) (name : String) : Nat × DB :=
  match db.endorsements.find? (·.name = toUpperStr name) with
  | some e => (e.id, db)
  | none =>
      (db.next_endorsement_id,
       { db with
          endorsements := db.endorsements ++
            [⟨db.next_endorsement_id, toUpperStr name⟩],
          next_endorsement_id := db.next_endorsement_id + 1 })

/-- `endorsements._link_endorsement`: `INSERT OR IGNORE` into
`record_endorsements`. -/

def link_endorsement (db : DB) (record_id endorsement_id : Nat) : DB :=
  if db.record_endorsements.any fun re =>
      re.record_id = record_id && re.endorsement_id = endorsement_id then db
  else
    { db with record_endorsements := db.record_endorsements ++
        [⟨record_id, endorsement_id⟩] }

/-- `INSERT OR IGNORE INTO endorsement_codes` (primary key
`(code, endorsement_id)`). -/

def insertCodeMapping (db : DB) (code : String) (eid : Nat) : DB :=
  if db.endorsement_codes.any fun ec =>
      ec.code = code && ec.endorsement_id = eid then db
  else
    { db with endorsement_codes := db.endorsement_codes ++ [⟨code, eid⟩] }

/-- `raw.rstrip(",")`: strip trailing commas only. -/

def rstripCommas (s : List Char) : List Char :=
  (s.reverse.dropWhile (· = ',')).reverse

/-- Python `str.isdigit` (ASCII model): nonempty and all digits. -/

def isDigits (s : List Char) : Bool := s ≠ [] && s.all isAsciiDigit

/-- `.+$` of `endorsements._CODE_NAME_RE`: the remainder must be a
nonempty newline-free body, optionally followed by one final newline
(which `$` matches before). -/

def dotPlusEnd (t : List Char) : Option (List Char) :=
  let body := if t.getLast? = some '\n' then t.dropLast else t
  if body ≠ [] && !body.contains '\n' then some body else none

/-- Backtracking over the greedy `\s+`: try the longest whitespace run
first, giving characters back to `.+` one at a time. -/

def tryWs (r2 : List Char) : Nat → Option (List Char)
  | 0 => none
  | k + 1 =>
      match dotPlusEnd (r2.drop (k + 1)) with
      | some body => some body
      | none => tryWs r2 k

/-- `endorsements._CODE_NAME_RE.match(s)` (`^(\d+),\s+(.+)$`): returns
the code digits and the name group. -/

def parseCodeName (s : List Char) : Option (List Char × List Char) :=
  let ds := s.takeWhile isAsciiDigit
  let rest := s.drop ds.length
  if ds = [] then none
  else
    match rest with
    | ',' :: r2 =>
        let m := (r2.takeWhile pyWsB).length
        if m = 0 then none
        else
          match tryWs r2 m with
          | some body => some (ds, body)
          | none => none
    | _ => none

/-- `endorsements._process_code`: resolve via `endorsement_codes` (any
existing mapping, placeholders included), else fall back to the embedded
name, else create a numeric placeholder. -/

def process_code (db : DB) (record_id : Nat) (code : String)
    (fallback_name : Option String) : Nat × DB :=
  if db.endorsement_codes.filter (·.code = code) ≠ [] then
    ((db.endorsement_codes.filter (·.code = code)).length,
     (db.endorsement_codes.filter (·.code = code)).foldl
       (fun d ec => link_endorsement d record_id ec.endorsement_id) db)
  else
    match fallback_name with
    | some name =>
        let r := ensure_endorsement db name
        let db2 := insertCodeMapping r.2 code r.1
        (1, link_endorsement db2 record_id r.1)
    | none =>
        let r := ensure_endorsement db code
        let db2 := insertCodeMapping r.2 code r.1
        (1, link_endorsement db2 record_id r.1)

/-- The semicolon-splitting text branch of `endorsements.process_record`. -/

def textLoop (db : DB) (record_id : Nat) : List (List Char) → Nat × DB
  | [] => (0, db)
  | p :: ps =>
      let name := stripL p
      if name = [] then textLoop db record_id ps
      else
        let r := ensure_endorsement db ⟨name⟩
        let db2 := link_endorsement r.2 record_id r.1
        let rest := textLoop db2 record_id ps
        (rest.1 + 1, rest.2)

/-- `endorsements.process_record`. -/

def process_record (db : DB) (record_id : Nat) (raw_license_type : String) :
    Nat × DB :=
  if raw_license_type = "" then (0, db)
  else if isDigits (stripL (rstripCommas raw_license_type.data)) then
    process_code db record_id ⟨stripL (rstripCommas raw_license_type.data)⟩ none
  else
    match parseCodeName (stripL (rstripCommas raw_license_type.data)) with
    | some (code, name) =>
        process_code db record_id ⟨code⟩ (some ⟨stripL name⟩)
    | none => textLoop db record_id (splitSemi raw_license_type.data)

/-- A code has a real (non-placeholder) mapping when some
`endorsement_codes` row for it points at an endorsement whose name
differs from the code itself (spec §4.5: a placeholder endorsement's name
equals the numeric code). -/

def hasRealMapping (db : DB) (code : String) : Bool :=
  db.endorsement_codes.any fun ec =>
    ec.code = code &&
      (db.endorsements.any fun e => e.id = ec.endorsement_id && e.name ≠ code)

/-- Days from civil date (proleptic Gregorian, epoch 1970-01-01). -/

def daysFromCivil (y m d : Int) : Int :=
  let y2 := if m ≤ 2 then y - 1 else y
  let era := y2.fdiv 400
  let yoe := y2 - era * 400
  let doy := (153 * (m + (if m > 2 then -3 else 9)) + 2).fdiv 5 + d - 1
  let doe := yoe * 365 + yoe.fdiv 4 - yoe.fdiv 100 + doy
  era * 146097 + doe - 719468

/-- Civil date from days since 1970-01-01. -/

def civilFromDays (z0 : Int) : Int × Int × Int :=
  let z := z0 + 719468
  let era := z.fdiv 146097
  let doe := z - era * 146097
  let yoe := (doe - doe.fdiv 1460 + doe.fdiv 36524 - doe.fdiv 146096).fdiv 365
  let y := yoe + era * 400
  let doy := doe - (365 * yoe + yoe.fdiv 4 - yoe.fdiv 100)
  let mp := (5 * doy + 2).fdiv 153
  let d := doy - (153 * mp + 2).fdiv 5 + 1
  let m := mp + (if mp < 10 then 3 else -9)
  (if m ≤ 2 then y + 1 else y, m, d)

/-- Parse a well-formed `YYYY-MM-DD` (calendar-validated, as SQLite's
date functions require). -/

def parseIso (s : List Char) : Option (Int × Int × Int) :=
  match s with
  | [y1, y2, y3, y4, c1, m1, m2, c2, d1, d2] =>
      if c1 = '-' && c2 = '-' &&
          [y1, y2, y3, y4, m1, m2, d1, d2].all isAsciiDigit then
        let y := digitsToNat [y1, y2, y3, y4]
        let m := digitsToNat [m1, m2]
        let d := digitsToNat [d1, d2]
        if 1 ≤ m && m ≤ 12 && 1 ≤ d && d ≤ daysInMonth y m then
          some ((y : Int), (m : Int), (d : Int))
        else none
      else none
  | _ => none

/-- `date(X, '<delta> days')`: `none` models SQL NULL (malformed input). -/

def sqliteDateAdd (s : String) (delta : Int) : Option String :=
  match parseIso s.data with
  | none => none
  | some (y, m, d) =>
      match civilFromDays (daysFromCivil y m d + delta) with
      | (y2, m2, d2) => some ⟨fmtIso y2.toNat m2.toNat d2.toNat⟩

/-- Binary (code-point) text comparison, as SQLite's default collation. -/

def listLeChar : List Char → List Char → Bool
  | [], _ => true
  | _ :: _, [] => false
  | a :: as, b :: bs =>
      if a.toNat < b.toNat then true
      else if b.toNat < a.toNat then false
      else listLeChar as bs

/-- `x <= y` on TEXT. -/

def strLe (a b : String) : Bool := listLeChar a.data b.data

/-- `x >= date(y, '-tol days')`; NULL comparisons are false. -/

def dateGeMinus (x y : String) (tol : Int) : Bool :=
  match sqliteDateAdd y (-tol) with
  | none => false
  | some t => strLe t x

/-- `x <= date(y, '+tol days')`; NULL comparisons are false. -/

def dateLePlus (x y : String) (tol : Int) : Bool :=
  match sqliteDateAdd y tol with
  | none => false
  | some t => strLe x t

/-- `link_records._APPROVAL_LINK_TYPES`. -/

def APPROVAL_LINK_TYPES : List String :=
  ["RENEWAL", "NEW APPLICATION", "ASSUMPTION", "ADDED/CHANGE OF CLASS",
   "CHANGE OF CORPORATE OFFICER", "CHANGE OF LOCATION", "RESUME BUSINESS",
   "IN LIEU"]

/-- `link_records.DATE_TOLERANCE_DAYS`. -/

def DATE_TOLERANCE_DAYS : Int := 7

/-- `ORDER BY record_date ASC, id ASC LIMIT 1`. -/

def pickMinDateId (cands : List LRecord) : Option LRecord :=
  cands.foldl
    (fun acc r =>
      match acc with
      | none => some r
      | some b =>
          if strLe r.record_date b.record_date &&
              r.record_date ≠ b.record_date then some r
          else if r.record_date = b.record_date && r.id < b.id then some r
          else some b)
    none

/-- `ORDER BY record_date DESC, id DESC LIMIT 1`. -/

def pickMaxDateId (cands : List LRecord) : Option LRecord :=
  cands.foldl
    (fun acc r =>
      match acc with
      | none => some r
      | some b =>
          if strLe b.record_date r.record_date &&
              r.record_date ≠ b.record_date then some r
          else if r.record_date = b.record_date && b.id < r.id then some r
          else some b)
    none

/-- A `Nat → Nat` Python dict (insertion-ordered, assignment overwrites). -/

def ndictSet (m : List (Nat × Nat)) (k v : Nat) : List (Nat × Nat) :=
  if m.any (·.1 = k) then m.map fun kv => if kv.1 = k then (k, v) else kv
  else m ++ [(k, v)]

/-- `m.get(k)`. -/

def ndictGet (m : List (Nat × Nat)) (k : Nat) : Option Nat :=
  (m.find? (·.1 = k)).map (·.2)

/-- The forward subquery of `_link_approvals` for one new-application
row. -/

def fwdCandidate (db : DB) (na : LRecord) : Option Nat :=
  (pickMinDateId (db.records.filter fun ap =>
    ap.section_type = "approved" &&
    ap.license_number = na.license_number &&
    ap.application_type = na.application_type &&
    dateGeMinus ap.record_date na.record_date DATE_TOLERANCE_DAYS)).map (·.id)

/-- The forward pass (`fwd_map`). -/

def fwdMap (db : DB) : List (Nat × Nat) :=
  (db.records.filter fun na =>
    na.section_type = "new_application" &&
    APPROVAL_LINK_TYPES.contains na.application_type).foldl
    (fun acc na =>
      match fwdCandidate db na with
      | some oid => ndictSet acc na.id oid
      | none => acc)
    []

/-- The backward subquery of `_link_approvals` for one claimed outcome. -/

def bwdCandidate (db : DB) (ap : LRecord) : Option Nat :=
  (pickMaxDateId (db.records.filter fun na =>
    na.section_type = "new_application" &&
    na.license_number = ap.license_number &&
    na.application_type = ap.application_type &&
    dateLePlus na.record_date ap.record_date DATE_TOLERANCE_DAYS &&
    APPROVAL_LINK_TYPES.contains na.application_type)).map (·.id)

/-- The backward pass (`bwd_map`), over the claimed outcome ids. -/

def bwdMap (db : DB) (outcomeIds : List Nat) : List (Nat × Nat) :=
  (db.records.filter fun ap =>
    ap.section_type = "approved" && outcomeIds.contains ap.id).foldl
    (fun acc ap =>
      match bwdCandidate db ap with
      | some nid => ndictSet acc ap.id nid
      | none => acc)
    []

/-- `link_records._insert_link`: compute the signed day gap from the two
stored dates and `INSERT OR IGNORE` the link
(UNIQUE `(new_app_id, outcome_id)`). -/

def insert_link (db : DB) (new_app_id outcome_id : Nat)
    (confidence : String) : DB :=
  let dg : Option Int :=
    match (db.records.find? (·.id = new_app_id)).map (·.record_date),
        (db.records.find? (·.id = outcome_id)).map (·.record_date) with
    | some nd, some od =>
        if nd ≠ "" && od ≠ "" then
          match parseIso nd.data, parseIso od.data with
          | some (y1, m1, d1), some (y2, m2, d2) =>
              some (daysFromCivil y2 m2 d2 - daysFromCivil y1 m1 d1)
          | _, _ => none
        else none
    | _, _ => none
  if db.record_links.any fun l =>
      l.new_app_id = new_app_id && l.outcome_id = outcome_id then db
  else
    { db with record_links := db.record_links ++
        [⟨new_app_id, outcome_id, confidence, dg⟩] }

/-- `link_records._link_approvals`: forward pass, backward pass over the
claimed outcomes, then the high (mutual) inserts followed by the medium
(forward-only) inserts.  Returns `(high, medium, db)`. -/

def link_approvals (db : DB) : Nat × Nat × DB :=
  let fm := fwdMap db
  if fm = [] then (0, 0, db)
  else
    let bm := bwdMap db (fm.map (·.2))
    let db1 := fm.foldl
      (fun d p => if ndictGet bm p.2 = some p.1 then
        insert_link d p.1 p.2 "high" else d) db
    let db2 := fm.foldl
      (fun d p => if ndictGet bm p.2 = some p.1 then d else
        insert_link d p.1 p.2 "medium") db1
    ((fm.filter fun p => ndictGet bm p.2 = some p.1).length,
     (fm.filter fun p => ¬ (ndictGet bm p.2 = some p.1)).length,
     db2)

/-- The forward subquery of `_link_discontinuances`. -/

def fwdCandidateDisc (db : DB) (na : LRecord) : Option Nat :=
  (pickMinDateId (db.records.filter fun dc =>
    dc.section_type = "discontinued" &&
    dc.license_number = na.license_number &&
    dc.application_type = "DISCONTINUED" &&
    dateGeMinus dc.record_date na.record_date DATE_TOLERANCE_DAYS)).map (·.id)

/-- The forward pass of `_link_discontinuances`. -/

def fwdMapDisc (db : DB) : List (Nat × Nat) :=
  (db.records.filter fun na =>
    na.section_type = "new_application" &&
    na.application_type = "DISC. LIQUOR SALES").foldl
    (fun acc na =>
      match fwdCandidateDisc db na with
      | some oid => ndictSet acc na.id oid
      | none => acc)
    []

/-- The backward subquery of `_link_discontinuances`. -/

def bwdCandidateDisc (db : DB) (dc : LRecord) : Option Nat :=
  (pickMaxDateId (db.records.filter fun na =>
    na.section_type = "new_application" &&
    na.license_number = dc.license_number &&
    na.application_type = "DISC. LIQUOR SALES" &&
    dateLePlus na.record_date dc.record_date DATE_TOLERANCE_DAYS)).map (·.id)

/-- The backward pass of `_link_discontinuances`. -/

def bwdMapDisc (db : DB) (outcomeIds : List Nat) : List (Nat × Nat) :=
  (db.records.filter fun dc =>
    dc.section_type = "discontinued" && dc.application_type = "DISCONTINUED" &&
      outcomeIds.contains dc.id).foldl
    (fun acc dc =>
      match bwdCandidateDisc db dc with
      | some nid => ndictSet acc dc.id nid
      | none => acc)
    []

/-- `link_records._link_discontinuances`. -/

def link_discontinuances (db : DB) : Nat × Nat × DB :=
  let fm := fwdMapDisc db
  if fm = [] then (0, 0, db)
  else
    let bm := bwdMapDisc db (fm.map (·.2))
    let db1 := fm.foldl
      (fun d p => if ndictGet bm p.2 = some p.1 then
        insert_link d p.1 p.2 "high" else d) db
    let db2 := fm.foldl
      (fun d p => if ndictGet bm p.2 = some p.1 then d else
        insert_link d p.1 p.2 "medium") db1
    ((fm.filter fun p => ndictGet bm p.2 = some p.1).length,
     (fm.filter fun p => ¬ (ndictGet bm p.2 = some p.1)).length,
     db2)

/-- `link_records.build_all_links`: clear `record_links`, run the
approval phase then the discontinuance phase.
Returns `(high, medium, db)`. -/

def build_all_links (db : DB) : Nat × Nat × DB :=
  match link_approvals { db with record_links := [] } with
  | (ha, ma, db1) =>
      match link_discontinuances db1 with
      | (hb, mb, db2) => (ha + hb, ma + mb, db2)

/-- The S5 store: two RENEWAL applications for license L003
(06-08 and 06-10) and one approved RENEWAL outcome (06-12). -/

def dbS5 : DB :=
  { DB.empty with
      records :=
        [⟨1, "new_application", "2025-06-08", "", none, "", "", "RENEWAL",
          "L003", "", "", "", none, "t"⟩,
         ⟨2, "new_application", "2025-06-10", "", none, "", "", "RENEWAL",
          "L003", "", "", "", none, "t"⟩,
         ⟨3, "approved", "2025-06-12", "", none, "", "", "RENEWAL",
          "L003", "", "", "", none, "t"⟩],
      next_record_id := 4 }

/-- `link_records._link_new_app`. -/

def link_new_app (db : DB) (new_app_id : Nat)
    (app_type lic_num new_date : String) : Option Nat × DB :=
  match
    (if app_type = "DISC. LIQUOR SALES" then
      (pickMinDateId (db.records.filter fun dc =>
        dc.section_type = "discontinued" && dc.license_number = lic_num &&
        dc.application_type = "DISCONTINUED" &&
        dateGeMinus dc.record_date new_date DATE_TOLERANCE_DAYS)).map (·.id)
    else if APPROVAL_LINK_TYPES.contains app_type then
      (pickMinDateId (db.records.filter fun ap =>
        ap.section_type = "approved" && ap.license_number = lic_num &&
        ap.application_type = app_type &&
        dateGeMinus ap.record_date new_date DATE_TOLERANCE_DAYS)).map (·.id)
    else none) with
  | none => (none, db)
  | some outcome_id =>
      match db.records.find? (·.id = outcome_id) with
      | none => (none, db)
      | some out_rec =>
          match
            (if app_type = "DISC. LIQUOR SALES" then
              (pickMaxDateId (db.records.filter fun na =>
                na.section_type = "new_application" &&
                na.license_number = lic_num &&
                na.application_type = "DISC. LIQUOR SALES" &&
                dateLePlus na.record_date out_rec.record_date
                  DATE_TOLERANCE_DAYS)).map (·.id)
            else
              (pickMaxDateId (db.records.filter fun na =>
                na.section_type = "new_application" &&
                na.license_number = lic_num &&
                na.application_type = app_type &&
                dateLePlus na.record_date out_rec.record_date
                  DATE_TOLERANCE_DAYS)).map (·.id)) with
          | best_new =>
              (some outcome_id,
               insert_link db new_app_id outcome_id
                 (if best_new = some new_app_id then "high" else "medium"))

/-- `link_records._link_outcome`. -/

def link_outcome (db : DB) (outcome_id : Nat)
    (sec app_type lic_num out_date : String) : Option Nat × DB :=
  match
    (if sec = "discontinued" && app_type = "DISCONTINUED" then
      (pickMaxDateId (db.records.filter fun na =>
        na.section_type = "new_application" && na.license_number = lic_num &&
        na.application_type = "DISC. LIQUOR SALES" &&
        dateLePlus na.record_date out_date DATE_TOLERANCE_DAYS)).map (·.id)
    else if sec = "approved" && APPROVAL_LINK_TYPES.contains app_type then
      (pickMaxDateId (db.records.filter fun na =>
        na.section_type = "new_application" && na.license_number = lic_num &&
        na.application_type = app_type &&
        dateLePlus na.record_date out_date DATE_TOLERANCE_DAYS)).map (·.id)
    else none) with
  | none => (none, db)
  | some new_app_id =>
      match db.records.find? (·.id = new_app_id) with
      | none => (none, db)
      | some new_rec =>
          match
            (if sec = "discontinued" then
              (pickMinDateId (db.records.filter fun dc =>
                dc.section_type = "discontinued" &&
                dc.license_number = lic_num &&
                dc.application_type = "DISCONTINUED" &&
                dateGeMinus dc.record_date new_rec.record_date
                  DATE_TOLERANCE_DAYS)).map (·.id)
            else
              (pickMinDateId (db.records.filter fun ap =>
                ap.section_type = "approved" &&
                ap.license_number = lic_num &&
                ap.application_type = app_type &&
                dateGeMinus ap.record_date new_rec.record_date
                  DATE_TOLERANCE_DAYS)).map (·.id)) with
          | best_out =>
              (some new_app_id,
               insert_link db new_app_id outcome_id
                 (if best_out = some outcome_id then "high" else "medium"))

/-- `link_records.link_new_record`. -/

def link_new_record (db : DB) (record_id : Nat) : Option Nat × DB :=
  match db.records.find? (·.id = record_id) with
  | none => (none, db)
  | some rec =>
      if rec.section_type = "new_application" then
        link_new_app db record_id rec.application_type rec.license_number
          rec.record_date
      else if rec.section_type = "approved" ||
          rec.section_type = "discontinued" then
        link_outcome db record_id rec.section_type rec.application_type
          rec.license_number rec.record_date
      else (none, db)

/-! ### Pipeline (`pipeline.py`) -/

/-- Modelled from the spec: `database.link_record_source` is imported by
`pipeline.py` but the function is absent from `src/database.py`; per spec
§3 (*Source*) and §4.7 it inserts a `record_sources` junction row
`(record_id, source_id, role)`, with the junction's primary key making an
exact duplicate a no-op. -/

def link_record_source (db : DB) (record_id source_id : Nat)
    (role : String) : DB :=
  if db.record_sources.any fun rs =>
      rs.record_id = record_id && rs.source_id = source_id &&
        rs.role = role then db
  else
    { db with record_sources := db.record_sources ++
        [⟨record_id, source_id, role⟩] }

/-- `pipeline.IngestOptions` (the `av_client` handle belongs to the
external address-validator collaborator, which is the `av` function
argument of `ingest_record` below). -/

structure IngestOptions where
  validate_addresses : Bool := true
  link_outcomes : Bool := true
  source_id : Option Nat := none
  source_role : String := "first_seen"
  batch_size : Nat := 200
deriving Repr, DecidableEq

/-- `pipeline.IngestResult`. -/

structure IngestResult where
  record_id : Nat
  is_new : Bool
deriving Repr, DecidableEq

/-- `pipeline.BatchResult`. -/

structure BatchResult where
  inserted : Nat := 0
  skipped : Nat := 0
  errors : Nat := 0
  record_ids : List Nat := []
deriving Repr, DecidableEq

/-- `pipeline.ingest_record`, with the external address-validation step
(`address_validator.validate_record` / `validate_previous_location`, an
HTTP collaborator) abstracted as the state transformer `av`.  Enrichment
steps are error-isolated in the source; in the pure model they always
succeed. -/

def ingest_record (av : DB → Nat → DB) (db : DB) (record : RecD)
    (options : IngestOptions) : Option IngestResult × DB :=
  match insert_record db record with
  | (none, db1) => (none, db1)
  | (some (record_id, is_new), db1) =>
      if is_new then
        match (process_record db1 record_id (dgetD record "license_type")).2 with
        | db2 =>
            match
              (match options.source_id with
               | some sid =>
                   link_record_source db2 record_id sid options.source_role
               | none => db2) with
            | db3 =>
                match
                  (if options.validate_addresses then av db3 record_id
                   else db3) with
                | db4 =>
                    match
                      (if options.link_outcomes then
                        (link_new_record db4 record_id).2
                      else db4) with
                    | db5 => (some ⟨record_id, true⟩, db5)
      else
        match
          (match options.source_id with
           | some sid => link_record_source db1 record_id sid "confirmed"
           | none => db1) with
        | db2 => (some ⟨record_id, false⟩, db2)

/-- The loop of `pipeline.ingest_batch` (commits are no-ops in the
model). -/

def ingestBatchGo (av : DB → Nat → DB) (options : IngestOptions) :
    List RecD → DB → BatchResult → BatchResult × DB
  | [], db, res => (res, db)
  | r :: rs, db, res =>
      match ingest_record av db r options with
      | (none, db1) =>
          ingestBatchGo av options rs db1 { res with errors := res.errors + 1 }
      | (some ir, db1) =>
          if ir.is_new then
            ingestBatchGo av options rs db1
              { res with inserted := res.inserted + 1,
                         record_ids := res.record_ids ++ [ir.record_id] }
          else
            ingestBatchGo av options rs db1
              { res with skipped := res.skipped + 1 }

/-- `pipeline.ingest_batch`. -/

def ingest_batch (av : DB → Nat → DB) (db : DB) (records : List RecD)
    (options : IngestOptions) : BatchResult × DB :=
  ingestBatchGo av options records db {}

/-- The ids of the newly inserted (`is_new`) records, in input order. -/

def newIds (av : DB → Nat → DB) (options : IngestOptions) :
    DB → List RecD → List Nat
  | _, [] => []
  | db, r :: rs =>
      match ingest_record av db r options with
      | (none, db1) => newIds av options db1 rs
      | (some ir, db1) =>
          (if ir.is_new then [ir.record_id] else []) ++ newIds av options db1 rs

/-- Schema-level database state for `schema.migrate`.  The DDL effect of
each migration function is abstracted as a schema flag; `ran` is the
execution trace of the migration functions that actually ran, and every
`PRAGMA user_version = v` write is recorded in `versions_set`. -/

structure SchemaDB where
  user_version : Nat := 0
  has_license_records : Bool := false
  has_enrichment_cols : Bool := false
  has_content_hash : Bool := false
  ran : List Nat := []
  versions_set : List Nat := []
deriving Repr, DecidableEq

/-- `schema._m001_baseline`: creates the core tables (abstracted). -/

def m001_baseline (db : SchemaDB) : SchemaDB :=
  { db with has_license_records := true, ran := db.ran ++ [1] }

/-- `schema._m002_enrichment_tracking` (abstracted). -/

def m002_enrichment_tracking (db : SchemaDB) : SchemaDB :=
  { db with has_enrichment_cols := true, ran := db.ran ++ [2] }

/-- `schema._m003_content_hash` (abstracted). -/

def m003_content_hash (db : SchemaDB) : SchemaDB :=
  { db with has_content_hash := true, ran := db.ran ++ [3] }

/-- `schema.MIGRATIONS`: the registered (version, name, fn) triples. -/

def MIGRATIONS : List (Nat × String × (SchemaDB → SchemaDB)) :=
  [(1, "baseline", m001_baseline),
   (2, "enrichment_tracking", m002_enrichment_tracking),
   (3, "content_hash", m003_content_hash)]

/-- `schema._EXISTING_DB_STAMP_VERSION`. -/

def EXISTING_DB_STAMP_VERSION : Nat := 1

/-- `schema._set_user_version`. -/

def set_user_version (db : SchemaDB) (v : Nat) : SchemaDB :=
  { db with user_version := v, versions_set := db.versions_set ++ [v] }

/-- The `for version, name, fn in MIGRATIONS` loop of `schema.migrate`. -/

def migrateGo : List (Nat × String × (SchemaDB → SchemaDB)) → Nat →
    SchemaDB → Nat × SchemaDB
  | [], current, db => (current, db)
  | (version, _, fn) :: rest, current, db =>
      if version > current then
        migrateGo rest version (set_user_version (fn db) version)
      else
        migrateGo rest current db

/-- `schema.migrate`: stamp an existing pre-framework store
(`user_version == 0` but `license_records` present) to the baseline
version, then run every pending migration; returns the final version. -/

def migrate (db : SchemaDB) : Nat × SchemaDB :=
  if db.user_version = 0 ∧ db.has_license_records = true then
    migrateGo MIGRATIONS EXISTING_DB_STAMP_VERSION
      (set_user_version db EXISTING_DB_STAMP_VERSION)
  else
    migrateGo MIGRATIONS db.user_version db

/-- Modelled from the spec: a `scrape_log` row (§4.9).  The content-hash
helpers (`compute_content_hash`, `get_last_content_hash`) that the spec
and the test suite describe are absent from `src/scraper.py`. -/

structure ScrapeLogRow where
  id : Nat
  status : String
  content_hash : Option String
deriving Repr, DecidableEq

/-- Modelled from the spec: scraper-level state — the `scrape_log` table
plus an abstract count of stored license records. -/

structure ScrapeState where
  scrape_log : List ScrapeLogRow := []
  next_log_id : Nat := 1
  records : Nat := 0
deriving Repr, DecidableEq

/-- Modelled from the spec: `get_last_content_hash` — the hash of the
most recent `scrape_log` row whose status is `success` or `unchanged`
and whose `content_hash` is non-null. -/

def get_last_content_hash (logs : List ScrapeLogRow) : Option String :=
  match logs.reverse.find?
      (fun r => (r.status == "success" || r.status == "unchanged") &&
        r.content_hash.isSome) with
  | some r => r.content_hash
  | none => none

/-- Modelled from the spec: the content-hash short-circuit of `scrape`
(§4.9).  Fetching and parsing are abstracted: `hashFn` stands for the
SHA-256 hex digest of the body, `ingestCount` for the number of records
the parse-and-ingest path adds for the given body.  When the digest
equals the last recorded one, the log row is stamped `unchanged` and
nothing is parsed or ingested; otherwise the full pipeline runs and the
row is stamped `success` with the hash. -/

def scrape (hashFn : String → String) (ingestCount : String → Nat)
    (html : String) (st : ScrapeState) : ScrapeState :=
  if get_last_content_hash st.scrape_log == some (hashFn html) then
    { st with
      scrape_log := st.scrape_log ++
        [⟨st.next_log_id, "unchanged", some (hashFn html)⟩],
      next_log_id := st.next_log_id + 1 }
  else
    { st with
      scrape_log := st.scrape_log ++
        [⟨st.next_log_id, "success", some (hashFn html)⟩],
      next_log_id := st.next_log_id + 1,
      records := st.records + ingestCount html }

theorem toNat_ofNat_lt {n : Nat} (h : n < 55296) : (Char.ofNat n).toNat = n := by
  have hv : n.isValidChar := Or.inl h
  simp [Char.ofNat, hv, Char.ofNatAux, Char.toNat, UInt32.toNat]

theorem pyWsB_eq_false {c : Char} (h1 : 65 ≤ c.toNat) (h2 : c.toNat ≤ 122) :
    pyWsB c = false := by
  simp only [pyWsB, Bool.or_eq_false_iff, decide_eq_false_iff_not]
  omega

theorem pyWsB_upChar (c : Char) : pyWsB (upChar c) = pyWsB c := by
  unfold upChar
  split
  · rename_i h
    have ht : (Char.ofNat (c.toNat - 32)).toNat = c.toNat - 32 :=
      toNat_ofNat_lt (by omega)
    rw [pyWsB_eq_false (by omega) (by omega),
        pyWsB_eq_false (c := c) (by omega) (by omega)]
  · rfl

theorem upChar_upChar (c : Char) : upChar (upChar c) = upChar c := by
  by_cases h : 97 ≤ c.toNat ∧ c.toNat ≤ 122
  · have h1 : upChar c = Char.ofNat (c.toNat - 32) := by rw [upChar, if_pos h]
    have ht : (Char.ofNat (c.toNat - 32)).toNat = c.toNat - 32 :=
      toNat_ofNat_lt (by omega)
    rw [h1, upChar, if_neg]
    rw [ht]
    omega
  · have h1 : upChar c = c := by rw [upChar, if_neg h]
    rw [h1, h1]

theorem upChar_space : upChar ' ' = ' ' := by decide

theorem eq_semi_of_upChar_eq_semi {c : Char} (h : upChar c = ';') : c = ';' := by
  by_cases hr : 97 ≤ c.toNat ∧ c.toNat ≤ 122
  · exfalso
    rw [upChar, if_pos hr] at h
    have ht : (Char.ofNat (c.toNat - 32)).toNat = c.toNat - 32 :=
      toNat_ofNat_lt (by omega)
    have : (';' : Char).toNat = 59 := by decide
    rw [h] at ht
    omega
  · rwa [upChar, if_neg hr] at h

/-! ### Shape predicates for cleaned strings -/

theorem noLeadWs_nil : NoLeadWs [] := by intro c h; simp at h

theorem noTrailWs_nil : NoTrailWs [] := by intro c h; simp at h

theorem head?_of_pfx {s t : List Char} (h : s <+: t) (hne : s ≠ []) :
    s.head? = t.head? := by
  obtain ⟨r, rfl⟩ := h
  cases s with
  | nil => exact absurd rfl hne
  | cons a l => simp

theorem noLeadWs_of_pfx {s t : List Char} (h : s <+: t) (ht : NoLeadWs t) :
    NoLeadWs s := by
  intro c hc
  have hne : s ≠ [] := by intro he; subst he; simp at hc
  exact ht c ((head?_of_pfx h hne) ▸ hc)

theorem upFixed_of_pfx {s t : List Char} (h : s <+: t) (ht : UpFixed t) :
    UpFixed s := fun c hc => ht c (h.sublist.mem hc)

theorem spacedOk_of_pfx {s t : List Char} (h : s <+: t) (ht : SpacedOk t) :
    SpacedOk s :=
  ⟨fun c hc => ht.1 c (h.sublist.mem hc), List.Chain'.prefix ht.2 h⟩

/-! ### `strip` lemmas -/

theorem noLeadWs_dropWhile (s : List Char) : NoLeadWs (s.dropWhile pyWsB) := by
  induction s with
  | nil => exact noLeadWs_nil
  | cons c rest ih =>
      by_cases h : pyWsB c
      · simpa [List.dropWhile_cons, h] using ih
      · intro d hd
        simp [List.dropWhile_cons, h] at hd
        subst hd
        simpa using h

theorem rstrip_pfx (s : List Char) : rstrip s <+: s := by
  unfold rstrip
  obtain ⟨t, ht⟩ := List.dropWhile_suffix (l := s.reverse) (p := pyWsB)
  refine ⟨t.reverse, ?_⟩
  have := congrArg List.reverse ht
  simpa using this

theorem noTrailWs_rstrip (s : List Char) : NoTrailWs (rstrip s) := by
  intro c hc
  unfold rstrip at hc
  rw [List.getLast?_eq_head?_reverse, List.reverse_reverse] at hc
  exact noLeadWs_dropWhile s.reverse c hc

theorem rstrip_eq_self {s : List Char} (h : NoTrailWs s) : rstrip s = s := by
  unfold rstrip
  rw [show s.reverse.dropWhile pyWsB = s.reverse from ?_, List.reverse_reverse]
  cases hr : s.reverse with
  | nil => simp
  | cons c t =>
      have hc : s.getLast? = some c := by
        rw [List.getLast?_eq_head?_reverse, hr]; rfl
      rw [List.dropWhile_cons, h c hc]
      simp

theorem lstrip_eq_self {s : List Char} (h : NoLeadWs s) : lstrip s = s := by
  unfold lstrip
  cases s with
  | nil => simp
  | cons c t =>
      rw [List.dropWhile_cons, h c rfl]
      simp

theorem noLeadWs_stripL (s : List Char) : NoLeadWs (stripL s) :=
  noLeadWs_of_pfx (rstrip_pfx (lstrip s)) (noLeadWs_dropWhile s)

theorem noTrailWs_stripL (s : List Char) : NoTrailWs (stripL s) :=
  noTrailWs_rstrip (lstrip s)

/-! ### `collapse` lemmas -/

theorem collapseAux_mem {b : Bool} {s : List Char} :
    ∀ x ∈ collapseAux b s, x = ' ' ∨ (x ∈ s ∧ pyWsB x = false) := by
  induction s generalizing b with
  | nil => intro x hx; simp [collapseAux] at hx
  | cons c rest ih =>
      intro x hx
      by_cases h : pyWsB c
      · cases b with
        | true =>
            rw [show collapseAux true (c :: rest) = collapseAux true rest from by
              simp [collapseAux, h]] at hx
            rcases ih x hx with h1 | ⟨h2, h3⟩
            · exact Or.inl h1
            · exact Or.inr ⟨List.mem_cons_of_mem _ h2, h3⟩
        | false =>
            rw [show collapseAux false (c :: rest) = ' ' :: collapseAux true rest
              from by simp [collapseAux, h]] at hx
            rcases List.mem_cons.mp hx with rfl | hx
            · exact Or.inl rfl
            · rcases ih x hx with h1 | ⟨h2, h3⟩
              · exact Or.inl h1
              · exact Or.inr ⟨List.mem_cons_of_mem _ h2, h3⟩
      · rw [show collapseAux b (c :: rest) = c :: collapseAux false rest from by
          simp [collapseAux, h]] at hx
        rcases List.mem_cons.mp hx with rfl | hx
        · exact Or.inr ⟨List.mem_cons_self _ _, by simpa using h⟩
        · rcases ih x hx with h1 | ⟨h2, h3⟩
          · exact Or.inl h1
          · exact Or.inr ⟨List.mem_cons_of_mem _ h2, h3⟩

theorem collapseAux_head_true {s : List Char} :
    ∀ c, (collapseAux true s).head? = some c → pyWsB c = false := by
  induction s with
  | nil => intro c hc; simp [collapseAux] at hc
  | cons a rest ih =>
      intro c hc
      by_cases h : pyWsB a
      · rw [show collapseAux true (a :: rest) = collapseAux true rest from by
            simp [collapseAux, h]] at hc
        exact ih c hc
      · rw [show collapseAux true (a :: rest) = a :: collapseAux false rest
          from by simp [collapseAux, h]] at hc
        simp only [List.head?_cons, Option.some.injEq] at hc
        subst hc
        simpa using h

theorem collapseAux_ne_nil {b : Bool} {s : List Char}
    (h : ∃ c ∈ s, pyWsB c = false) : collapseAux b s ≠ [] := by
  induction s generalizing b with
  | nil => simp at h
  | cons a rest ih =>
      by_cases hws : pyWsB a
      · obtain ⟨c, hc, hcw⟩ := h
        have hcr : c ∈ rest := by
          rcases List.mem_cons.mp hc with rfl | h2
          · rw [hws] at hcw; cases hcw
          · exact h2
        cases b with
        | true =>
            rw [show collapseAux true (a :: rest) = collapseAux true rest from by
              simp [collapseAux, hws]]
            exact ih ⟨c, hcr, hcw⟩
        | false => simp [collapseAux, hws]
      · simp [collapseAux, hws]

theorem collapseAux_chain (b : Bool) (s : List Char) :
    List.Chain' (fun a b => ¬(pyWsB a = true ∧ pyWsB b = true))
      (collapseAux b s) := by
  induction s generalizing b with
  | nil => simp [collapseAux]
  | cons a rest ih =>
      by_cases h : pyWsB a
      · cases b with
        | true =>
            rw [show collapseAux true (a :: rest) = collapseAux true rest from by
              simp [collapseAux, h]]
            exact ih true
        | false =>
            rw [show collapseAux false (a :: rest) = ' ' :: collapseAux true rest
              from by simp [collapseAux, h]]
            refine List.chain'_cons'.mpr ⟨?_, ih true⟩
            intro y hy h2
            rw [collapseAux_head_true y hy] at h2
            exact absurd h2.2 (by simp)
      · rw [show collapseAux b (a :: rest) = a :: collapseAux false rest from by
          simp [collapseAux, h]]
        refine List.chain'_cons'.mpr ⟨?_, ih false⟩
        intro y _ h2
        rw [h2.1] at h
        exact h rfl

theorem spacedOk_collapse (s : List Char) : SpacedOk (collapse s) := by
  constructor
  · intro c hc hw
    rcases collapseAux_mem c hc with h | ⟨_, h2⟩
    · exact h
    · rw [hw] at h2; cases h2
  · exact collapseAux_chain false s

theorem upFixed_collapse {s : List Char} (h : UpFixed s) :
    UpFixed (collapse s) := by
  intro c hc
  rcases collapseAux_mem c hc with rfl | ⟨h2, _⟩
  · exact upChar_space
  · exact h c h2

theorem collapseAux_true_eq_false {s : List Char}
    (h : ∀ c, s.head? = some c → pyWsB c = false) :
    collapseAux true s = collapseAux false s := by
  cases s with
  | nil => rfl
  | cons a rest => simp [collapseAux, h a rfl]

theorem collapse_eq_self {s : List Char} (h : SpacedOk s) : collapse s = s := by
  unfold collapse
  induction s with
  | nil => rfl
  | cons a rest ih =>
      obtain ⟨hall, hchain⟩ := h
      obtain ⟨hhd, htl⟩ := List.chain'_cons'.mp hchain
      have hrest : collapseAux false rest = rest :=
        ih ⟨fun c hc => hall c (List.mem_cons_of_mem _ hc), htl⟩
      by_cases hws : pyWsB a
      · have ha : a = ' ' := hall a (List.mem_cons_self _ _) hws
        have hhead : ∀ c, rest.head? = some c → pyWsB c = false := by
          intro c hc
          by_contra hcon
          exact hhd c hc ⟨hws, by simpa using hcon⟩
        rw [show collapseAux false (a :: rest) = ' ' :: collapseAux true rest
          from by simp [collapseAux, hws]]
        rw [collapseAux_true_eq_false hhead, hrest, ha]
      · rw [show collapseAux false (a :: rest) = a :: collapseAux false rest
          from by simp [collapseAux, hws]]
        rw [hrest]

theorem collapse_head {s : List Char} (h : NoLeadWs s) :
    (collapse s).head? = s.head? := by
  cases s with
  | nil => rfl
  | cons a rest =>
      have := h a rfl
      simp [collapse, collapseAux, this]

theorem noLeadWs_collapse {s : List Char} (h : NoLeadWs s) :
    NoLeadWs (collapse s) := by
  intro c hc
  rw [collapse_head h] at hc
  exact h c hc

theorem getLast?_cons_of_ne_nil {a : Char} {t : List Char} (h : t ≠ []) :
    (a :: t).getLast? = t.getLast? := by
  obtain ⟨x, hx⟩ : ∃ x, t.getLast? = some x := by
    cases ht : t.getLast? with
    | none => exact absurd (List.getLast?_eq_none_iff.mp ht) h
    | some x => exact ⟨x, rfl⟩
  rw [show a :: t = [a] ++ t from rfl, List.getLast?_append, hx]
  simp

theorem noTrailWs_collapseAux {s : List Char} (hs : NoTrailWs s) (b : Bool) :
    NoTrailWs (collapseAux b s) := by
  induction s generalizing b with
  | nil => intro c hc; simp [collapseAux] at hc
  | cons a rest ih =>
      cases hr : rest with
      | nil =>
          subst hr
          have ha : pyWsB a = false := hs a rfl
          rw [show collapseAux b [a] = [a] from by simp [collapseAux, ha]]
          intro c hc
          simp at hc
          subst hc
          exact ha
      | cons d r2 =>
          have hrne : rest ≠ [] := by rw [hr]; simp
          subst hr
          have hrest : NoTrailWs (d :: r2) := by
            intro c hc
            exact hs c (by rw [getLast?_cons_of_ne_nil hrne]; exact hc)
          have hlast : ∃ c ∈ d :: r2, pyWsB c = false := by
            obtain ⟨x, hx⟩ : ∃ x, (d :: r2).getLast? = some x := by
              cases ht : (d :: r2).getLast? with
              | none => exact absurd (List.getLast?_eq_none_iff.mp ht) hrne
              | some x => exact ⟨x, rfl⟩
            exact ⟨x, List.mem_of_getLast?_eq_some hx, hrest x hx⟩
          by_cases hws : pyWsB a
          · cases b with
            | true =>
                rw [show collapseAux true (a :: d :: r2) =
                    collapseAux true (d :: r2) from by simp [collapseAux, hws]]
                exact ih hrest true
            | false =>
                rw [show collapseAux false (a :: d :: r2) =
                    ' ' :: collapseAux true (d :: r2) from by
                  simp [collapseAux, hws]]
                intro c hc
                rw [getLast?_cons_of_ne_nil (collapseAux_ne_nil hlast)] at hc
                exact ih hrest true c hc
          · rw [show collapseAux b (a :: d :: r2) =
                a :: collapseAux false (d :: r2) from by simp [collapseAux, hws]]
            intro c hc
            rw [getLast?_cons_of_ne_nil (collapseAux_ne_nil hlast)] at hc
            exact ih hrest false c hc

theorem noTrailWs_collapse {s : List Char} (hs : NoTrailWs s) :
    NoTrailWs (collapse s) := noTrailWs_collapseAux hs false

/-! ### `stripTrailingPunct` lemmas -/

theorem stripPunctGo_pfx : ∀ (f : Nat) (s : List Char), stripPunctGo f s <+: s
  | 0, s => List.prefix_refl s
  | f + 1, s => by
      unfold stripPunctGo
      split
      · exact (stripPunctGo_pfx f _).trans
          ((rstrip_pfx _).trans s.dropLast_prefix)
      · exact List.prefix_refl s

theorem punctGuard_nil : punctGuard [] = false := rfl

theorem ne_nil_of_punctGuard {s : List Char} (h : punctGuard s = true) :
    s ≠ [] := by
  intro he
  subst he
  simp [punctGuard_nil] at h

theorem stripPunctGo_guard_false :
    ∀ (f : Nat) (s : List Char), s.length < f →
      punctGuard (stripPunctGo f s) = false := by
  intro f
  induction f with
  | zero => intro s h; omega
  | succ f ih =>
      intro s h
      unfold stripPunctGo
      split
      · rename_i hg
        apply ih
        have hne : s ≠ [] := ne_nil_of_punctGuard hg
        have h1 : (rstrip s.dropLast).length ≤ s.dropLast.length :=
          (rstrip_pfx _).length_le
        have h2 : s.dropLast.length = s.length - 1 := s.length_dropLast
        have h3 : 0 < s.length := List.length_pos.mpr hne
        omega
      · rename_i hg
        simpa using hg

theorem stripPunctGo_of_guard_false {f : Nat} {s : List Char} (hf : 0 < f)
    (h : punctGuard s = false) : stripPunctGo f s = s := by
  cases f with
  | zero => omega
  | succ f => unfold stripPunctGo; rw [h]; simp

theorem noTrailWs_stripPunctGo :
    ∀ (f : Nat) {s : List Char}, NoTrailWs s → NoTrailWs (stripPunctGo f s) := by
  intro f
  induction f with
  | zero => intro s h; exact h
  | succ f ih =>
      intro s h
      unfold stripPunctGo
      split
      · exact ih (noTrailWs_rstrip _)
      · exact h

/-! ### `cleanL` is a fixed point of itself -/

theorem map_upFixed {y : List Char} (h : UpFixed y) : y.map upChar = y := by
  induction y with
  | nil => rfl
  | cons c rest ih =>
      simp only [List.map_cons, h c (List.mem_cons_self _ _)]
      rw [ih fun d hd => h d (List.mem_cons_of_mem _ hd)]

theorem stripL_eq_self {y : List Char} (h1 : NoLeadWs y) (h2 : NoTrailWs y) :
    stripL y = y := by
  unfold stripL
  rw [lstrip_eq_self h1, rstrip_eq_self h2]

theorem cleanL_props (s : List Char) :
    NoLeadWs (cleanL s) ∧ NoTrailWs (cleanL s) ∧ SpacedOk (cleanL s) ∧
      UpFixed (cleanL s) := by
  unfold cleanL stripTrailingPunct
  have hu_lead : NoLeadWs ((stripL s).map upChar) := by
    intro c hc
    rw [List.head?_map] at hc
    cases hh : (stripL s).head? with
    | none => rw [hh] at hc; simp at hc
    | some d =>
        rw [hh] at hc
        simp only [Option.map_some', Option.some.injEq] at hc
        subst hc
        rw [pyWsB_upChar]
        exact noLeadWs_stripL s d hh
  have hu_trail : NoTrailWs ((stripL s).map upChar) := by
    intro c hc
    rw [List.getLast?_eq_head?_reverse, ← List.map_reverse, List.head?_map] at hc
    cases hh : (stripL s).reverse.head? with
    | none => rw [hh] at hc; simp at hc
    | some d =>
        rw [hh] at hc
        simp only [Option.map_some', Option.some.injEq] at hc
        subst hc
        rw [pyWsB_upChar]
        exact noTrailWs_stripL s d (by rw [List.getLast?_eq_head?_reverse]; exact hh)
  have hu_fix : UpFixed ((stripL s).map upChar) := by
    intro c hc
    obtain ⟨d, _, rfl⟩ := List.mem_map.mp hc
    exact upChar_upChar d
  have hpre := stripPunctGo_pfx
    ((collapse ((stripL s).map upChar)).length + 1) (collapse ((stripL s).map upChar))
  exact ⟨noLeadWs_of_pfx hpre (noLeadWs_collapse hu_lead),
    noTrailWs_stripPunctGo _ (noTrailWs_collapse hu_trail),
    spacedOk_of_pfx hpre (spacedOk_collapse _),
    upFixed_of_pfx hpre (upFixed_collapse hu_fix)⟩

theorem punctGuard_cleanL (s : List Char) : punctGuard (cleanL s) = false := by
  unfold cleanL stripTrailingPunct
  exact stripPunctGo_guard_false _ _ (by omega)

theorem cleanL_fixpoint {y : List Char} (h1 : NoLeadWs y) (h2 : NoTrailWs y)
    (h3 : SpacedOk y) (h4 : UpFixed y) (h5 : punctGuard y = false) :
    cleanL y = y := by
  unfold cleanL
  rw [stripL_eq_self h1 h2, map_upFixed h4, collapse_eq_self h3]
  unfold stripTrailingPunct
  exact stripPunctGo_of_guard_false (by omega) h5

theorem cleanL_idem (s : List Char) : cleanL (cleanL s) = cleanL s := by
  obtain ⟨h1, h2, h3, h4⟩ := cleanL_props s
  exact cleanL_fixpoint h1 h2 h3 h4 (punctGuard_cleanL s)

/-! ### `splitSemi` / `joinParts` lemmas -/

theorem splitSemi_ne_nil : ∀ s : List Char, splitSemi s ≠ [] := by
  intro s
  cases s with
  | nil => simp [splitSemi]
  | cons c rest =>
      unfold splitSemi
      split
      · simp
      · split <;> simp

theorem no_semi_mem_splitSemi : ∀ (s : List Char), ∀ p ∈ splitSemi s, ';' ∉ p := by
  intro s
  induction s with
  | nil => intro p hp; simp [splitSemi] at hp; subst hp; simp
  | cons c rest ih =>
      intro p hp
      by_cases hc : c = ';'
      · rw [show splitSemi (c :: rest) = [] :: splitSemi rest from by
          simp [splitSemi, hc]] at hp
        rcases List.mem_cons.mp hp with rfl | hp
        · simp
        · exact ih p hp
      · cases hsp : splitSemi rest with
        | nil => exact absurd hsp (splitSemi_ne_nil rest)
        | cons q qs =>
            rw [show splitSemi (c :: rest) = (c :: q) :: qs from by
              simp [splitSemi, hc, hsp]] at hp
            rcases List.mem_cons.mp hp with rfl | hp
            · intro hmem
              rcases List.mem_cons.mp hmem with h | h
              · exact hc h.symm
              · exact ih q (hsp ▸ List.mem_cons_self _ _) h
            · exact ih p (hsp ▸ List.mem_cons_of_mem _ hp)

theorem splitSemi_no_semi {p : List Char} (h : ';' ∉ p) : splitSemi p = [p] := by
  induction p with
  | nil => rfl
  | cons c rest ih =>
      have hc : ¬ c = ';' := fun he => h (he ▸ List.mem_cons_self _ _)
      have hr : splitSemi rest = [rest] :=
        ih fun hm => h (List.mem_cons_of_mem _ hm)
      simp [splitSemi, hc, hr]

theorem splitSemi_append {p t : List Char} {q : List Char} {qs : List (List Char)}
    (h : ';' ∉ p) (ht : splitSemi t = q :: qs) :
    splitSemi (p ++ t) = (p ++ q) :: qs := by
  induction p with
  | nil => simpa using ht
  | cons c rest ih =>
      have hc : ¬ c = ';' := fun he => h (he ▸ List.mem_cons_self _ _)
      have hr := ih fun hm => h (List.mem_cons_of_mem _ hm)
      simp [splitSemi, hc, hr]

theorem lstrip_sublist (s : List Char) : List.Sublist (lstrip s) s :=
  List.dropWhile_sublist _

theorem stripL_sublist (s : List Char) : List.Sublist (stripL s) s :=
  ((rstrip_pfx (lstrip s)).sublist).trans (lstrip_sublist s)

theorem cleanL_mem {s : List Char} :
    ∀ x ∈ cleanL s, x = ' ' ∨ ∃ c ∈ s, x = upChar c := by
  intro x hx
  unfold cleanL stripTrailingPunct at hx
  have hx2 := (stripPunctGo_pfx _ _).sublist.mem hx
  rcases collapseAux_mem x hx2 with h | ⟨h2, _⟩
  · exact Or.inl h
  · obtain ⟨c, hc, rfl⟩ := List.mem_map.mp h2
    exact Or.inr ⟨c, (stripL_sublist s).mem hc, rfl⟩

theorem semi_not_mem_cleanL {s : List Char} (h : ';' ∉ s) : ';' ∉ cleanL s := by
  intro hmem
  rcases cleanL_mem _ hmem with h1 | ⟨c, hc, h2⟩
  · cases h1
  · exact h (eq_semi_of_upChar_eq_semi h2.symm ▸ hc)

theorem cleanL_cons_space (p : List Char) : cleanL (' ' :: p) = cleanL p := rfl

theorem splitSemi_joinParts :
    ∀ (p : List Char) (ps : List (List Char)),
      (∀ q ∈ p :: ps, ';' ∉ q) →
      splitSemi (joinParts (p :: ps)) = p :: ps.map (' ' :: ·) := by
  intro p ps
  induction ps generalizing p with
  | nil =>
      intro h
      simpa [joinParts] using splitSemi_no_semi (h p (List.mem_cons_self _ _))
  | cons q rest ih =>
      intro h
      have hJ : splitSemi (joinParts (q :: rest)) = q :: rest.map (' ' :: ·) :=
        ih q fun r hr => h r (List.mem_cons_of_mem _ hr)
      have hsp : splitSemi (' ' :: joinParts (q :: rest)) =
          (' ' :: q) :: rest.map (' ' :: ·) := by
        simp [splitSemi, hJ]
      have hsemi : splitSemi (';' :: ' ' :: joinParts (q :: rest)) =
          [] :: (' ' :: q) :: rest.map (' ' :: ·) := by
        rw [show splitSemi (';' :: ' ' :: joinParts (q :: rest)) =
          [] :: splitSemi (' ' :: joinParts (q :: rest)) from by
            simp [splitSemi], hsp]
      have happ := splitSemi_append (h p (List.mem_cons_self _ _)) hsemi
      rw [show joinParts (p :: q :: rest) = p ++ ';' :: ' ' :: joinParts (q :: rest)
        from rfl, happ]
      simp

theorem cleanAppL_fix (s : List Char) (hne : cleanAppL s ≠ []) :
    cleanAppL (cleanAppL s) = cleanAppL s := by
  unfold cleanAppL at hne ⊢
  cases hqs : ((splitSemi s).map cleanL).filter (· ≠ []) with
  | nil => rw [hqs] at hne; exact absurd rfl hne
  | cons p rest =>
      rw [hqs] at hne
      have hmem : ∀ q ∈ p :: rest, q ≠ [] ∧ cleanL q = q ∧ ';' ∉ q := by
        intro q hq
        have hq2 := hqs ▸ hq
        have hne2 : q ≠ [] := by
          have := List.of_mem_filter hq2
          simpa using this
        obtain ⟨r, hr, rfl⟩ := List.mem_map.mp (List.mem_of_mem_filter hq2)
        exact ⟨hne2, cleanL_idem r,
          semi_not_mem_cleanL (no_semi_mem_splitSemi s r hr)⟩
      rw [splitSemi_joinParts p rest fun q hq => (hmem q hq).2.2]
      have hmap : (p :: rest.map (' ' :: ·)).map cleanL = p :: rest := by
        simp only [List.map_cons, List.map_map]
        rw [(hmem p (List.mem_cons_self _ _)).2.1]
        congr 1
        have : ∀ r ∈ rest, (cleanL ∘ (' ' :: ·)) r = r := by
          intro r hr
          show cleanL (' ' :: r) = r
          rw [cleanL_cons_space]
          exact (hmem r (List.mem_cons_of_mem _ hr)).2.1
        calc rest.map (cleanL ∘ (' ' :: ·)) = rest.map id := List.map_congr_left this
          _ = rest := List.map_id rest
      rw [hmap]
      have hfil : (p :: rest).filter (· ≠ []) = p :: rest := by
        apply List.filter_eq_self.mpr
        intro q hq
        simpa using (hmem q hq).1
      rw [hfil]

/-! ### Entity classification (`entities._ORG_PATTERNS`) -/

theorem org_tokens_ne_nil : ∀ t ∈ ORG_TOKENS, t ≠ [] := by decide

theorem orgSearchAux_sound :
    ∀ (u p : List Char), orgSearchAux p.getLast? u = true →
      OrgTokenOccurs (p ++ u) := by
  intro u
  induction u with
  | nil => intro p h; simp [orgSearchAux] at h
  | cons c rest ih =>
      intro p h
      rw [orgSearchAux] at h
      rcases Bool.or_eq_true_iff.mp h with h1 | h2
      · obtain ⟨t, htmem, htm⟩ := List.any_eq_true.mp h1
        unfold tokenMatchFrom at htm
        rw [Bool.and_eq_true, Bool.and_eq_true] at htm
        obtain ⟨⟨hpre, hprev⟩, hafter⟩ := htm
        obtain ⟨q, hq⟩ := List.isPrefixOf_iff_prefix.mp hpre
        have hdrop : (c :: rest).drop t.length = q := by
          rw [← hq, List.drop_left]
        refine ⟨p, t, q, ?_, htmem, ?_, ?_⟩
        · rw [← hq, ← List.append_assoc]
        · cases hpl : p.getLast? with
          | none => exact Or.inl (List.getLast?_eq_none_iff.mp hpl)
          | some d =>
              rw [hpl] at hprev
              exact Or.inr ⟨d, rfl, by simpa using hprev⟩
        · rw [hdrop] at hafter
          by_cases he : endsDot t
          · rw [if_pos he] at hafter ⊢
            cases hqh : q.head? with
            | none => rw [hqh] at hafter; cases hafter
            | some d => rw [hqh] at hafter; exact ⟨d, rfl, hafter⟩
          · rw [if_neg he] at hafter ⊢
            cases hqh : q.head? with
            | none => exact Or.inl (by simpa using hqh)
            | some d =>
                rw [hqh] at hafter
                exact Or.inr ⟨d, rfl, by simpa using hafter⟩
      · have h3 := ih (p ++ [c]) (by rw [List.getLast?_concat]; exact h2)
        rwa [List.append_assoc, List.singleton_append] at h3

theorem orgSearchAux_complete :
    ∀ (p' : List Char) (prev : Option Char) (t q : List Char),
      t ∈ ORG_TOKENS →
      tokenMatchFrom (p'.getLast?.or prev) t (t ++ q) = true →
      orgSearchAux prev (p' ++ t ++ q) = true := by
  intro p'
  induction p' with
  | nil =>
      intro prev t q ht hm
      simp only [Option.or, List.getLast?_nil] at hm
      cases htl : t with
      | nil => exact absurd htl (org_tokens_ne_nil t ht)
      | cons c ts =>
          subst htl
          rw [List.nil_append, List.cons_append, orgSearchAux]
          apply Bool.or_eq_true_iff.mpr
          left
          exact List.any_eq_true.mpr ⟨_, ht, by rw [← List.cons_append]; exact hm⟩
  | cons c p'' ih =>
      intro prev t q ht hm
      have hlast : (c :: p'').getLast?.or prev = p''.getLast?.or (some c) := by
        cases hp : p'' with
        | nil => simp [Option.or]
        | cons d l =>
            rw [show (c :: d :: l).getLast? = (d :: l).getLast? from
              List.getLast?_cons_cons ..]
            cases hdl : (d :: l).getLast? with
            | none => exact absurd (List.getLast?_eq_none_iff.mp hdl) (by simp)
            | some x => simp [Option.or]
      rw [hlast] at hm
      rw [List.cons_append, List.cons_append, orgSearchAux]
      apply Bool.or_eq_true_iff.mpr
      right
      exact ih (some c) t q ht hm

theorem orgSearch_iff (s : List Char) : orgSearch s = true ↔ OrgTokenOccurs s := by
  constructor
  · intro h
    have := orgSearchAux_sound s [] (by simpa [orgSearch] using h)
    simpa using this
  · rintro ⟨p, t, q, rfl, ht, hprev, hafter⟩
    apply orgSearchAux_complete p none t q ht
    unfold tokenMatchFrom
    rw [Bool.and_eq_true, Bool.and_eq_true]
    refine ⟨⟨List.isPrefixOf_iff_prefix.mpr ⟨q, rfl⟩, ?_⟩, ?_⟩
    · rcases hprev with rfl | ⟨d, hd, hw⟩
      · simp [Option.or]
      · rw [show p.getLast?.or none = some d by rw [hd]; rfl]
        simp [hw]
    · rw [List.drop_left]
      by_cases he : endsDot t
      · rw [if_pos he] at hafter ⊢
        obtain ⟨d, hd, hw⟩ := hafter
        rw [hd]
        exact hw
      · rw [if_neg he] at hafter ⊢
        rcases hafter with rfl | ⟨d, hd, hw⟩
        · simp
        · rw [hd]
          simp [hw]

/-- C6: Entity-name cleaning is idempotent: for every string `x`,
`clean_entity_name (clean_entity_name x) = clean_entity_name x`, and
likewise `clean_applicants_string` is idempotent on every string-or-None
input. -/
theorem c6_cleaning_idempotent :
    (∀ x : String, clean_entity_name (clean_entity_name x) = clean_entity_name x) ∧
    (∀ s : Option String,
      clean_applicants_string (clean_applicants_string s) =
        clean_applicants_string s) := by
  constructor
  · intro x
    show (⟨cleanL (cleanL x.data)⟩ : String) = ⟨cleanL x.data⟩
    rw [cleanL_idem]
  · intro s
    match s with
    | none => rfl
    | some s =>
        by_cases hd : s.data = []
        · rw [show clean_applicants_string (some s) = some s from by
            simp [clean_applicants_string, hd]]
          simp [clean_applicants_string, hd]
        · rw [show clean_applicants_string (some s) = some ⟨cleanAppL s.data⟩
            from by simp [clean_applicants_string, hd]]
          by_cases he : cleanAppL s.data = []
          · simp [clean_applicants_string, he]
          · rw [show clean_applicants_string (some (⟨cleanAppL s.data⟩ : String)) =
              some ⟨cleanAppL (cleanAppL s.data)⟩ from by
                simp [clean_applicants_string, he]]
            rw [cleanAppL_fix s.data he]

/-- C7 counterexample: `ACME LIMITED` is classified `organization` by the
code (the regex also matches `LIMITED`, `PARTNERS`, `CORPORATION`, …),
although it contains none of the specification's fixed keywords as a
whole word. -/
theorem c7_classification_counterexample :
    classify_entity_type "ACME LIMITED" = "organization" ∧
    containsSpecKeyword "ACME LIMITED".data = false := by
  constructor
  · decide
  · decide

/-- C7 (amended): a name is classified `organization` iff it contains, at
word boundaries, one of the code's expanded pattern tokens (`LLC` and its
dotted variants, `INC(.)`, `CORP(.)`, `CORPORATION`, `TRUST`, `LTD(.)`,
`LIMITED`, `PARTNERS`, `PARTNERSHIP`, `HOLDINGS`, `GROUP`, `ENTERPRISE`,
`ENTERPRISES`, `ASSOCIATION`, `FOUNDATION`, `COMPANY`, `CO.`, and `LP`
with optional periods); a token ending in a period requires a word
character immediately after it.  Every other name is classified
`person`. -/
theorem c7_classification_amended (name : String) :
    classify_entity_type name = "organization" ↔ OrgTokenOccurs name.data := by
  rw [← orgSearch_iff]
  unfold classify_entity_type
  constructor
  · intro h
    by_contra hcon
    rw [if_neg (by simpa using hcon)] at h
    exact absurd h (by decide)
  · intro h
    rw [if_pos h]

/-! ## Record dictionaries and the parser (`parser.py`)

A parsed record is a Python dict from field names to string values,
modelled as an insertion-ordered association list.  `dget`/`dgetD` model
`dict.get`; `dset` models item assignment (updating in place, appending
a fresh key at the end). -/

/-- C9: every record dict returned by `parse_records_from_table` has a
non-empty license_number; a block whose `License Number:` value is
missing or empty is silently dropped, both when a new date row starts the
next record and at the end of the table. -/
theorem c9_parse_table_license_number
    (rows : List (Option (String × String))) (section_type scraped_at : String)
    (parseLoc : String → String × String × String) (r : RecD)
    (hr : r ∈ parse_records_from_table rows section_type scraped_at parseLoc) :
    dgetD r "license_number" ≠ "" := by
  unfold parse_records_from_table at hr
  generalize hcur : ([] : RecD) = current at hr
  clear hcur
  induction rows generalizing current with
  | nil =>
      unfold parseRowsGo at hr
      split at hr
      · rename_i hlic
        rw [List.mem_singleton.mp hr]
        exact hlic
      · simp at hr
  | cons row rows ih =>
      cases row with
      | none => exact ih _ hr
      | some lv =>
          obtain ⟨label, value⟩ := lv
          unfold parseRowsGo at hr
          split at hr
          · rcases List.mem_append.mp hr with h1 | h2
            · split at h1
              · rename_i hlic
                rw [List.mem_singleton.mp h1]
                exact hlic
              · simp at h1
            · exact ih _ h2
          · exact ih _ hr

/-- Witness for C9 at a concrete two-block table: the first block (with
license number `360123`) is returned; the second block has an empty
license number and is dropped. -/
theorem c9_parse_table_license_number_witness :
    applyLabel (fun _ => ("", "WA", ""))
        (newRecord "approved" (normalize_date "6/10/2025") "t")
        "License Number:" "360123" ∈
      parse_records_from_table
        [some ("Approved Date:", "6/10/2025"),
         some ("License Number:", "360123"),
         some ("Approved Date:", "6/11/2025"),
         some ("License Number:", "")]
        "approved" "t" (fun _ => ("", "WA", "")) ∧
    dgetD (applyLabel (fun _ => ("", "WA", ""))
        (newRecord "approved" (normalize_date "6/10/2025") "t")
        "License Number:" "360123") "license_number" ≠ "" :=
  ⟨by decide,
   c9_parse_table_license_number
     [some ("Approved Date:", "6/10/2025"),
      some ("License Number:", "360123"),
      some ("Approved Date:", "6/11/2025"),
      some ("License Number:", "")]
     "approved" "t" (fun _ => ("", "WA", ""))
     (applyLabel (fun _ => ("", "WA", ""))
       (newRecord "approved" (normalize_date "6/10/2025") "t")
       "License Number:" "360123")
     (by decide)⟩

/-! ### Diff extraction (`parser.is_valid_record`,
`parser.extract_records_from_diff`)

The supplemental two-pass logic is embedded over an abstract line parser
(`parse_html_lines`, whose `bs4` HTML layer is outside the embedding). -/

theorem find?_map_dset {k k' : String} {v : String} (hne : k ≠ k') :
    ∀ r : RecD,
      (r.map (fun kv => if kv.1 = k' then (k', v) else kv)).find? (·.1 = k) =
        r.find? (·.1 = k) := by
  intro r
  induction r with
  | nil => rfl
  | cons kv r ih =>
      by_cases hk' : kv.1 = k'
      · rw [List.map_cons, if_pos hk']
        rw [List.find?_cons_of_neg _ (by simpa using fun he => hne he.symm),
            List.find?_cons_of_neg _ (by
              simp only [decide_eq_true_eq]
              rw [hk']
              exact fun he => hne he.symm)]
        exact ih
      · rw [List.map_cons, if_neg hk']
        by_cases hk : kv.1 = k
        · rw [List.find?_cons_of_pos, List.find?_cons_of_pos] <;> simp [hk]
        · rw [List.find?_cons_of_neg, List.find?_cons_of_neg]
          · exact ih
          · simpa using hk
          · simpa using hk

theorem find?_append_fresh {k k' : String} {v : String} (hne : k ≠ k') :
    ∀ r : RecD, (r ++ [(k', v)]).find? (·.1 = k) = r.find? (·.1 = k) := by
  intro r
  induction r with
  | nil =>
      rw [List.nil_append, List.find?_cons_of_neg, List.find?_nil]
      simpa using fun he => hne he.symm
  | cons kv r ih =>
      by_cases hk : kv.1 = k
      · rw [List.cons_append, List.find?_cons_of_pos, List.find?_cons_of_pos]
          <;> simp [hk]
      · rw [List.cons_append, List.find?_cons_of_neg, List.find?_cons_of_neg]
        · exact ih
        · simpa using hk
        · simpa using hk

theorem dgetD_dset_ne {r : RecD} {k k' v : String} (hne : k ≠ k') :
    dgetD (dset r k' v) k = dgetD r k := by
  unfold dgetD dget dset
  split
  · rw [find?_map_dset hne]
  · rw [find?_append_fresh hne]

theorem natKeyD_dset_scraped (r : RecD) (ts : String) :
    natKeyD (dset r "scraped_at" ts) = natKeyD r := by
  unfold natKeyD
  rw [dgetD_dset_ne (by decide), dgetD_dset_ne (by decide),
      dgetD_dset_ne (by decide), dgetD_dset_ne (by decide)]

theorem kmHasKey_append {m ext : KeyMap} {k : String × String × String × String} :
    kmHasKey (m ++ ext) k = (kmHasKey m k || kmHasKey ext k) := by
  unfold kmHasKey
  exact List.any_append

/-- The supplemental fold only appends entries whose natural key is fresh
with respect to the map it started from, and each appended entry is keyed
by its record's natural key. -/
theorem suppFold_ext (ts : String) :
    ∀ (rs : List RecD) (m : KeyMap),
      ∃ ext, rs.foldl (suppStep ts) m = m ++ ext ∧
        ∀ e ∈ ext, kmHasKey m e.1 = false ∧ e.1 = natKeyD e.2 := by
  intro rs
  induction rs with
  | nil => intro m; exact ⟨[], by simp, by simp⟩
  | cons r rs ih =>
      intro m
      rw [List.foldl_cons]
      by_cases hv : is_valid_record r = true
      · by_cases hh : kmHasKey m (natKeyD r) = true
        · rw [show suppStep ts m r = m from by
            unfold suppStep; rw [if_pos hv, if_pos hh]]
          exact ih m
        · have hstep : suppStep ts m r =
              m ++ [(natKeyD r, dset r "scraped_at" ts)] := by
            unfold suppStep kmSetdefault
            rw [if_pos hv, if_neg hh, if_neg]
            simpa [kmHasKey] using hh
          rw [hstep]
          obtain ⟨ext', hfold, hprop⟩ := ih (m ++ [(natKeyD r, dset r "scraped_at" ts)])
          refine ⟨(natKeyD r, dset r "scraped_at" ts) :: ext', ?_, ?_⟩
          · rw [hfold, List.append_assoc, List.singleton_append]
          · intro e he
            rcases List.mem_cons.mp he with rfl | he2
            · exact ⟨by simpa using hh, (natKeyD_dset_scraped r ts).symm⟩
            · obtain ⟨h1, h2⟩ := hprop e he2
              rw [kmHasKey_append, Bool.or_eq_false_iff] at h1
              exact ⟨h1.1, h2⟩
      · rw [show suppStep ts m r = m from by
          unfold suppStep; rw [if_neg hv]]
        exact ih m

/-- C8: the supplemental (context-inclusive) parse of
`extract_records_from_diff` runs exactly when the primary pass flagged an
incomplete record that had a license_number, and a record whose full
natural key already appears among the primary-pass results can only be
the primary-pass record itself (supplemental records never enter under an
existing key). -/
theorem c8_diff_supplemental_gating
    (parseLines : List String → List RecD)
    (added removed new_ctx old_ctx : List String) (old_ts new_ts : String)
    (r : RecD)
    (hr : r ∈ extract_records_from_diff parseLines added removed new_ctx
      old_ctx old_ts new_ts)
    (hk : kmHasKey (primPass parseLines added removed new_ts old_ts).1
      (natKeyD r) = true) :
    r ∈ kmValues (primPass parseLines added removed new_ts old_ts).1 ∧
    extract_records_from_diff parseLines added removed new_ctx old_ctx
        old_ts new_ts =
      (if (primPass parseLines added removed new_ts old_ts).2 then
        kmValues (suppPass parseLines new_ctx old_ctx new_ts old_ts
          (primPass parseLines added removed new_ts old_ts).1)
      else kmValues (primPass parseLines added removed new_ts old_ts).1) := by
  have hgate : extract_records_from_diff parseLines added removed new_ctx
      old_ctx old_ts new_ts =
      (if (primPass parseLines added removed new_ts old_ts).2 then
        kmValues (suppPass parseLines new_ctx old_ctx new_ts old_ts
          (primPass parseLines added removed new_ts old_ts).1)
      else kmValues (primPass parseLines added removed new_ts old_ts).1) := by
    unfold extract_records_from_diff
    cases hinc : (primPass parseLines added removed new_ts old_ts).2 <;> simp [hinc]
  refine ⟨?_, hgate⟩
  rw [hgate] at hr
  cases hinc : (primPass parseLines added removed new_ts old_ts).2 with
  | false => rwa [hinc, if_neg (by simp)] at hr
  | true =>
      rw [hinc, if_pos rfl] at hr
      unfold suppPass at hr
      obtain ⟨ext1, hf1, hp1⟩ := suppFold_ext new_ts (parseLines new_ctx)
        (primPass parseLines added removed new_ts old_ts).1
      obtain ⟨ext2, hf2, hp2⟩ := suppFold_ext old_ts (parseLines old_ctx)
        ((primPass parseLines added removed new_ts old_ts).1 ++ ext1)
      rw [hf1, hf2] at hr
      unfold kmValues at hr
      rw [List.append_assoc, List.map_append] at hr
      rcases List.mem_append.mp hr with h1 | h2
      · exact h1
      · exfalso
        obtain ⟨e, he, hre⟩ := List.mem_map.mp h2
        rcases List.mem_append.mp he with he1 | he2
        · obtain ⟨hfresh, hkey⟩ := hp1 e he1
          rw [hkey, hre, hk] at hfresh
          cases hfresh
        · obtain ⟨hfresh, hkey⟩ := hp2 e he2
          rw [kmHasKey_append, Bool.or_eq_false_iff] at hfresh
          rw [hkey, hre, hk] at hfresh
          rcases hfresh with ⟨h, _⟩
          cases h

/-- Witness for C8 at a concrete diff whose primary pass is clean: the
record is a primary value and the gating equation holds. -/
theorem c8_diff_supplemental_gating_witness :
    dset [("section_type", "approved"), ("record_date", "2025-06-10"),
          ("license_number", "360123"), ("application_type", "RENEWAL")]
        "scraped_at" "NT" ∈
      kmValues (primPass
        (fun _ => [[("section_type", "approved"), ("record_date", "2025-06-10"),
                    ("license_number", "360123"),
                    ("application_type", "RENEWAL")]])
        ["+x"] ["-x"] "NT" "OT").1 :=
  (c8_diff_supplemental_gating
    (fun _ => [[("section_type", "approved"), ("record_date", "2025-06-10"),
                ("license_number", "360123"), ("application_type", "RENEWAL")]])
    ["+x"] ["-x"] ["x"] ["x"] "OT" "NT"
    (dset [("section_type", "approved"), ("record_date", "2025-06-10"),
           ("license_number", "360123"), ("application_type", "RENEWAL")]
      "scraped_at" "NT")
    (by decide) (by decide)).1

/-! ## The relational store

One structure per table (surrogate ids are explicit; `next_*` counters
model `AUTOINCREMENT`).  Rows live in insertion order; SQL `INSERT`
appends, `INSERT OR IGNORE` appends unless the primary key is present. -/

/-- C1: when a record's natural key already matches an existing row,
`insert_record` returns `(existing_id, false)` and leaves every table
unchanged — no location, entity, record-entity, endorsement or record row
is created or modified, and the id counters do not move. -/
theorem c1_duplicate_insert_is_pure (db : DB) (record : RecD)
    (h : ∃ lr ∈ db.records, recordNatKeyMatches record lr = true) :
    ∃ lr, db.records.find? (recordNatKeyMatches record) = some lr ∧
      lr ∈ db.records ∧ recordNatKeyMatches record lr = true ∧
      insert_record db record = (some (lr.id, false), db) ∧
      (insert_record db record).2.locations = db.locations ∧
      (insert_record db record).2.records = db.records ∧
      (insert_record db record).2.entities = db.entities ∧
      (insert_record db record).2.record_entities = db.record_entities ∧
      (insert_record db record).2.endorsements = db.endorsements ∧
      (insert_record db record).2.endorsement_codes = db.endorsement_codes ∧
      (insert_record db record).2.record_endorsements = db.record_endorsements ∧
      (insert_record db record).2.record_sources = db.record_sources ∧
      (insert_record db record).2.record_links = db.record_links ∧
      (insert_record db record).2.next_location_id = db.next_location_id ∧
      (insert_record db record).2.next_record_id = db.next_record_id ∧
      (insert_record db record).2.next_entity_id = db.next_entity_id ∧
      (insert_record db record).2.next_endorsement_id = db.next_endorsement_id := by
  obtain ⟨lr0, hmem, hmatch⟩ := h
  cases hf : db.records.find? (recordNatKeyMatches record) with
  | none =>
      exact absurd hmatch (by
        simpa using List.find?_eq_none.mp hf lr0 hmem)
  | some lr =>
      have heq : insert_record db record = (some (lr.id, false), db) := by
        unfold insert_record
        rw [hf]
      have hmem2 : lr ∈ db.records := List.mem_of_find?_eq_some hf
      have hp : recordNatKeyMatches record lr = true := List.find?_some hf
      refine ⟨lr, ?_, hmem2, hp, heq, ?_, ?_, ?_, ?_, ?_, ?_, ?_, ?_, ?_,
        ?_, ?_, ?_, ?_⟩
      · rfl
      all_goals rw [heq]

/-- Witness for C1: re-inserting the already-present record returns
`(1, false)` and the store is returned untouched. -/
theorem c1_duplicate_insert_is_pure_witness :
    (∃ lr ∈ dbW.records, recordNatKeyMatches recW lr = true) ∧
    insert_record dbW recW = (some (1, false), dbW) := by
  refine ⟨by decide, ?_⟩
  obtain ⟨lr, hf, -, -, heq, -⟩ := c1_duplicate_insert_is_pure dbW recW (by decide)
  have hconc : dbW.records.find? (recordNatKeyMatches recW) =
      some ⟨1, "approved", "2025-06-10", "", none, "", "", "RENEWAL",
        "360123", "", "", "", none, "t"⟩ := by decide
  rw [hconc] at hf
  have hl := Option.some.inj hf
  rw [heq, ← hl]

/-! ### Endorsements (`endorsements.py`) -/

theorem link_endorsement_frame (db : DB) (r e : Nat) :
    (link_endorsement db r e).endorsements = db.endorsements ∧
    (link_endorsement db r e).endorsement_codes = db.endorsement_codes := by
  unfold link_endorsement
  split <;> exact ⟨rfl, rfl⟩

theorem mem_link_endorsement (db : DB) (r e : Nat) :
    (⟨r, e⟩ : RecEndorsement) ∈ (link_endorsement db r e).record_endorsements := by
  unfold link_endorsement
  split
  · rename_i h
    obtain ⟨re, hmem, hre⟩ := List.any_eq_true.mp h
    rw [Bool.and_eq_true, decide_eq_true_eq, decide_eq_true_eq] at hre
    have : re = ⟨r, e⟩ := by
      cases re
      simp_all
    exact this ▸ hmem
  · exact List.mem_append_right _ (List.mem_singleton.mpr rfl)

theorem link_endorsement_mono {db : DB} {a b : Nat} {x : RecEndorsement}
    (h : x ∈ db.record_endorsements) :
    x ∈ (link_endorsement db a b).record_endorsements := by
  unfold link_endorsement
  split
  · exact h
  · exact List.mem_append_left _ h

theorem linkFold_frame (rid : Nat) :
    ∀ (rows : List EndoCode) (db : DB),
      (rows.foldl (fun d ec => link_endorsement d rid ec.endorsement_id)
        db).endorsements = db.endorsements ∧
      (rows.foldl (fun d ec => link_endorsement d rid ec.endorsement_id)
        db).endorsement_codes = db.endorsement_codes := by
  intro rows
  induction rows with
  | nil => intro db; exact ⟨rfl, rfl⟩
  | cons ec rows ih =>
      intro db
      rw [List.foldl_cons]
      obtain ⟨h1, h2⟩ := ih (link_endorsement db rid ec.endorsement_id)
      obtain ⟨h3, h4⟩ := link_endorsement_frame db rid ec.endorsement_id
      exact ⟨h1.trans h3, h2.trans h4⟩

theorem linkFold_mono (rid : Nat) :
    ∀ (rows : List EndoCode) (db : DB) (x : RecEndorsement),
      x ∈ db.record_endorsements →
      x ∈ (rows.foldl (fun d ec => link_endorsement d rid ec.endorsement_id)
        db).record_endorsements := by
  intro rows
  induction rows with
  | nil => intro db x h; exact h
  | cons ec rows ih =>
      intro db x h
      rw [List.foldl_cons]
      exact ih _ x (link_endorsement_mono h)

theorem linkFold_links (rid : Nat) :
    ∀ (rows : List EndoCode) (db : DB), ∀ ec ∈ rows,
      (⟨rid, ec.endorsement_id⟩ : RecEndorsement) ∈
        (rows.foldl (fun d ec => link_endorsement d rid ec.endorsement_id)
          db).record_endorsements := by
  intro rows
  induction rows with
  | nil => intro db ec h; simp at h
  | cons ec0 rows ih =>
      intro db ec h
      rw [List.foldl_cons]
      rcases List.mem_cons.mp h with rfl | h2
      · exact linkFold_mono rid rows _ _
          (mem_link_endorsement db rid ec.endorsement_id)
      · exact ih _ ec h2

theorem insertCodeMapping_frame (db : DB) (code : String) (eid : Nat) :
    (insertCodeMapping db code eid).endorsements = db.endorsements ∧
    (insertCodeMapping db code eid).record_endorsements =
      db.record_endorsements := by
  unfold insertCodeMapping
  split <;> exact ⟨rfl, rfl⟩

theorem mem_insertCodeMapping (db : DB) (code : String) (eid : Nat) :
    (⟨code, eid⟩ : EndoCode) ∈ (insertCodeMapping db code eid).endorsement_codes := by
  unfold insertCodeMapping
  split
  · rename_i h
    obtain ⟨ec, hmem, hec⟩ := List.any_eq_true.mp h
    rw [Bool.and_eq_true, decide_eq_true_eq, decide_eq_true_eq] at hec
    have : ec = ⟨code, eid⟩ := by
      cases ec
      simp_all
    exact this ▸ hmem
  · exact List.mem_append_right _ (List.mem_singleton.mpr rfl)

theorem ensure_endorsement_spec (db : DB) (name : String) :
    (⟨(ensure_endorsement db name).1, toUpperStr name⟩ : Endorsement) ∈
      (ensure_endorsement db name).2.endorsements ∧
    (ensure_endorsement db name).2.endorsement_codes = db.endorsement_codes ∧
    (ensure_endorsement db name).2.record_endorsements =
      db.record_endorsements := by
  cases hf : db.endorsements.find? (·.name = toUpperStr name) with
  | some e =>
      have he : ensure_endorsement db name = (e.id, db) := by
        unfold ensure_endorsement
        rw [hf]
      rw [he]
      refine ⟨?_, rfl, rfl⟩
      have hmem := List.mem_of_find?_eq_some hf
      have hp : e.name = toUpperStr name := by
        simpa using List.find?_some hf
      have hee : (⟨e.id, toUpperStr name⟩ : Endorsement) = e := by
        cases e
        simp_all
      rw [hee]
      exact hmem
  | none =>
      have he : ensure_endorsement db name =
          (db.next_endorsement_id,
           { db with
              endorsements := db.endorsements ++
                [⟨db.next_endorsement_id, toUpperStr name⟩],
              next_endorsement_id := db.next_endorsement_id + 1 }) := by
        unfold ensure_endorsement
        rw [hf]
      rw [he]
      exact ⟨List.mem_append_right _ (List.mem_singleton.mpr rfl), rfl, rfl⟩

/-- C3 counterexample: with `999` mapped only to its own placeholder
endorsement (`name = code`), the record with raw license type
`"999, CANNABIS TRANSPORTATION"` is linked to the placeholder; no
endorsement named `CANNABIS TRANSPORTATION` is created, although the code
has no real (non-placeholder) mapping.  The claim's requirement that a
placeholder mapping not count for this step is therefore false on the
code. -/
theorem c3_placeholder_counterexample :
    hasRealMapping
      { DB.empty with
          endorsements := [⟨1, "999"⟩],
          endorsement_codes := [⟨"999", 1⟩],
          next_endorsement_id := 2 } "999" = false ∧
    parseCodeName (stripL (rstripCommas
      "999, CANNABIS TRANSPORTATION".data)) =
      some ("999".data, "CANNABIS TRANSPORTATION".data) ∧
    (process_record
      { DB.empty with
          endorsements := [⟨1, "999"⟩],
          endorsement_codes := [⟨"999", 1⟩],
          next_endorsement_id := 2 } 7
      "999, CANNABIS TRANSPORTATION").2.endorsements = [⟨1, "999"⟩] ∧
    (process_record
      { DB.empty with
          endorsements := [⟨1, "999"⟩],
          endorsement_codes := [⟨"999", 1⟩],
          next_endorsement_id := 2 } 7
      "999, CANNABIS TRANSPORTATION").2.record_endorsements = [⟨7, 1⟩] := by
  refine ⟨by decide, by decide, by decide, by decide⟩

/-- C3 (amended): for a raw license type matching the legacy
`CODE, NAME` pattern, `process_record` links the record to the
endorsements of **all existing** `endorsement_codes` mappings for the
code — a placeholder mapping counts like any other — and only when the
code has **no mapping at all** does it create an endorsement named after
the embedded name, register the code→name mapping, and link the record
to it. -/
theorem c3_code_name_amended (db : DB) (rid : Nat) (raw : String)
    (code name : List Char)
    (h0 : raw ≠ "")
    (h1 : isDigits (stripL (rstripCommas raw.data)) = false)
    (h2 : parseCodeName (stripL (rstripCommas raw.data)) = some (code, name)) :
    if db.endorsement_codes.filter (·.code = (⟨code⟩ : String)) = [] then
      ∃ eid,
        (⟨eid, toUpperStr ⟨stripL name⟩⟩ : Endorsement) ∈
          (process_record db rid raw).2.endorsements ∧
        (⟨(⟨code⟩ : String), eid⟩ : EndoCode) ∈
          (process_record db rid raw).2.endorsement_codes ∧
        (⟨rid, eid⟩ : RecEndorsement) ∈
          (process_record db rid raw).2.record_endorsements
    else
      (process_record db rid raw).1 =
        (db.endorsement_codes.filter (·.code = (⟨code⟩ : String))).length ∧
      (process_record db rid raw).2.endorsements = db.endorsements ∧
      (process_record db rid raw).2.endorsement_codes =
        db.endorsement_codes ∧
      ∀ ec ∈ db.endorsement_codes.filter (·.code = (⟨code⟩ : String)),
        (⟨rid, ec.endorsement_id⟩ : RecEndorsement) ∈
          (process_record db rid raw).2.record_endorsements := by
  have hpr : process_record db rid raw =
      process_code db rid ⟨code⟩ (some ⟨stripL name⟩) := by
    unfold process_record
    rw [if_neg h0, h1, h2]
    simp
  split
  · rename_i hempty
    have hpc : process_code db rid ⟨code⟩ (some ⟨stripL name⟩) =
        (1, link_endorsement
          (insertCodeMapping (ensure_endorsement db ⟨stripL name⟩).2 ⟨code⟩
            (ensure_endorsement db ⟨stripL name⟩).1)
          rid (ensure_endorsement db ⟨stripL name⟩).1) := by
      unfold process_code
      rw [if_neg (by simpa using hempty)]
    rw [hpr, hpc]
    refine ⟨(ensure_endorsement db ⟨stripL name⟩).1, ?_, ?_, ?_⟩
    · rw [(link_endorsement_frame _ _ _).1,
          (insertCodeMapping_frame _ _ _).1]
      exact (ensure_endorsement_spec db ⟨stripL name⟩).1
    · rw [(link_endorsement_frame _ _ _).2]
      exact mem_insertCodeMapping _ _ _
    · exact mem_link_endorsement _ _ _
  · rename_i hne
    have hpc : process_code db rid ⟨code⟩ (some ⟨stripL name⟩) =
        ((db.endorsement_codes.filter (·.code = (⟨code⟩ : String))).length,
         (db.endorsement_codes.filter (·.code = (⟨code⟩ : String))).foldl
           (fun d ec => link_endorsement d rid ec.endorsement_id) db) := by
      unfold process_code
      rw [if_pos (by simpa using hne)]
    rw [hpr, hpc]
    exact ⟨rfl, (linkFold_frame rid _ db).1, (linkFold_frame rid _ db).2,
      fun ec hec => linkFold_links rid _ db ec hec⟩

/-- Witness for C3 (amended) on the placeholder store of the
counterexample: the mapping list for `999` is nonempty, so the record is
linked to its single (placeholder) endorsement and the endorsement tables
are untouched. -/
theorem c3_code_name_amended_witness :
    (process_record
        { DB.empty with
            endorsements := [⟨1, "999"⟩],
            endorsement_codes := [⟨"999", 1⟩],
            next_endorsement_id := 2 } 7
        "999, CANNABIS TRANSPORTATION").1 = 1 ∧
    (⟨7, 1⟩ : RecEndorsement) ∈
      (process_record
        { DB.empty with
            endorsements := [⟨1, "999"⟩],
            endorsement_codes := [⟨"999", 1⟩],
            next_endorsement_id := 2 } 7
        "999, CANNABIS TRANSPORTATION").2.record_endorsements := by
  have h := c3_code_name_amended
    { DB.empty with
        endorsements := [⟨1, "999"⟩],
        endorsement_codes := [⟨"999", 1⟩],
        next_endorsement_id := 2 } 7
    "999, CANNABIS TRANSPORTATION" "999".data "CANNABIS TRANSPORTATION".data
    (by decide) (by decide) (by decide)
  rw [if_neg (by decide)] at h
  obtain ⟨hcount, -, -, hlinks⟩ := h
  refine ⟨by simpa using hcount, ?_⟩
  have := hlinks ⟨"999", 1⟩ (by decide)
  simpa using this

/-! ### Outcome linker (`link_records.py`)

SQLite compares ISO dates as binary text and computes
`date(X, '±N days')` with proleptic Gregorian arithmetic; both are
modelled here (the civil-from-days conversion is the standard
era/year-of-era computation). -/

/-- C4: after `build_all_links` on the S5 store, both applications link
to the single outcome; the later application's link is `high`
(mutual best match, 2-day gap) and the earlier one's is `medium`
(4-day gap). -/
theorem c4_competing_applications_confidence :
    (build_all_links dbS5).2.2.record_links =
      [⟨2, 3, "high", some 2⟩, ⟨1, 3, "medium", some 4⟩] ∧
    (build_all_links dbS5).1 = 1 ∧
    (build_all_links dbS5).2.1 = 1 := by
  refine ⟨by decide, by decide, by decide⟩

/-! ### Incremental linking (`link_records.link_new_record`) -/

theorem ingestBatchGo_spec (av : DB → Nat → DB) (options : IngestOptions) :
    ∀ (rs : List RecD) (db : DB) (res : BatchResult),
      (ingestBatchGo av options rs db res).1.inserted =
        res.inserted + (newIds av options db rs).length ∧
      (ingestBatchGo av options rs db res).1.inserted +
        (ingestBatchGo av options rs db res).1.skipped +
        (ingestBatchGo av options rs db res).1.errors =
        res.inserted + res.skipped + res.errors + rs.length ∧
      (ingestBatchGo av options rs db res).1.record_ids =
        res.record_ids ++ newIds av options db rs := by
  intro rs
  induction rs with
  | nil => intro db res; exact ⟨by simp [ingestBatchGo, newIds], by
      simp [ingestBatchGo], by simp [ingestBatchGo, newIds]⟩
  | cons r rs ih =>
      intro db res
      cases hstep : ingest_record av db r options with
      | mk fst db1 =>
        cases fst with
        | none =>
            have hgo : ingestBatchGo av options (r :: rs) db res =
                ingestBatchGo av options rs db1
                  { res with errors := res.errors + 1 } := by
              rw [show ingestBatchGo av options (r :: rs) db res =
                  (match ingest_record av db r options with
                   | (none, db1) =>
                       ingestBatchGo av options rs db1
                         { res with errors := res.errors + 1 }
                   | (some ir, db1) =>
                       if ir.is_new then
                         ingestBatchGo av options rs db1
                           { res with inserted := res.inserted + 1,
                                      record_ids := res.record_ids ++ [ir.record_id] }
                       else
                         ingestBatchGo av options rs db1
                           { res with skipped := res.skipped + 1 }) from rfl,
                hstep]
            have hni : newIds av options db (r :: rs) = newIds av options db1 rs := by
              rw [show newIds av options db (r :: rs) =
                  (match ingest_record av db r options with
                   | (none, db1) => newIds av options db1 rs
                   | (some ir, db1) =>
                       (if ir.is_new then [ir.record_id] else []) ++
                         newIds av options db1 rs) from rfl,
                hstep]
            rw [hgo, hni]
            obtain ⟨h1, h2, h3⟩ := ih db1 { res with errors := res.errors + 1 }
            exact ⟨by simpa using h1, by simp at h2 ⊢; omega, by simpa using h3⟩
        | some ir =>
            have hgo0 : ingestBatchGo av options (r :: rs) db res =
                (if ir.is_new then
                   ingestBatchGo av options rs db1
                     { res with inserted := res.inserted + 1,
                                record_ids := res.record_ids ++ [ir.record_id] }
                 else
                   ingestBatchGo av options rs db1
                     { res with skipped := res.skipped + 1 }) := by
              rw [show ingestBatchGo av options (r :: rs) db res =
                  (match ingest_record av db r options with
                   | (none, db1) =>
                       ingestBatchGo av options rs db1
                         { res with errors := res.errors + 1 }
                   | (some ir, db1) =>
                       if ir.is_new then
                         ingestBatchGo av options rs db1
                           { res with inserted := res.inserted + 1,
                                      record_ids := res.record_ids ++ [ir.record_id] }
                       else
                         ingestBatchGo av options rs db1
                           { res with skipped := res.skipped + 1 }) from rfl,
                hstep]
            have hni0 : newIds av options db (r :: rs) =
                ((if ir.is_new then [ir.record_id] else []) ++
                  newIds av options db1 rs) := by
              rw [show newIds av options db (r :: rs) =
                  (match ingest_record av db r options with
                   | (none, db1) => newIds av options db1 rs
                   | (some ir, db1) =>
                       (if ir.is_new then [ir.record_id] else []) ++
                         newIds av options db1 rs) from rfl,
                hstep]
            by_cases hn : ir.is_new = true
            · rw [if_pos hn] at hgo0
              rw [if_pos hn] at hni0
              rw [hgo0, hni0]
              obtain ⟨h1, h2, h3⟩ := ih db1
                { res with inserted := res.inserted + 1,
                           record_ids := res.record_ids ++ [ir.record_id] }
              refine ⟨?_, ?_, ?_⟩
              · simp at h1 ⊢
                omega
              · simp at h2 ⊢
                omega
              · simp only at h3
                rw [h3, List.append_assoc, List.singleton_append]
            · rw [if_neg hn] at hgo0
              rw [if_neg hn] at hni0
              rw [hgo0, hni0]
              obtain ⟨h1, h2, h3⟩ := ih db1 { res with skipped := res.skipped + 1 }
              exact ⟨by simpa using h1, by simp at h2 ⊢; omega, by simpa using h3⟩

/-- C10: for every record list and options, `ingest_batch` returns
`inserted + skipped + errors = length`, `record_ids` is exactly the ids
of the newly inserted (`is_new`) records in input order, and
`record_ids.length = inserted`. -/
theorem c10_ingest_batch_accounting (av : DB → Nat → DB) (db : DB)
    (records : List RecD) (options : IngestOptions) :
    (ingest_batch av db records options).1.inserted +
      (ingest_batch av db records options).1.skipped +
      (ingest_batch av db records options).1.errors = records.length ∧
    (ingest_batch av db records options).1.record_ids =
      newIds av options db records ∧
    (ingest_batch av db records options).1.record_ids.length =
      (ingest_batch av db records options).1.inserted := by
  obtain ⟨h1, h2, h3⟩ := ingestBatchGo_spec av options records db {}
  refine ⟨by simpa using h2, by simpa using h3, ?_⟩
  unfold ingest_batch
  rw [h3, h1]
  simp [BatchResult]

/-- C5: on a store whose `user_version` is 0 but which already contains
the `license_records` table, `migrate` stamps the baseline version (1)
without executing the baseline migration function, then runs migrations
2 and 3 in ascending order, setting `user_version` after each, and
returns 3, the highest registered migration version. -/
theorem c5_migrate_stamps_existing (db : SchemaDB)
    (h0 : db.user_version = 0) (ht : db.has_license_records = true) :
    (migrate db).1 = 3 ∧
    (migrate db).2.ran = db.ran ++ [2, 3] ∧
    (migrate db).2.versions_set = db.versions_set ++ [1, 2, 3] ∧
    (migrate db).2.user_version = 3 := by
  simp [migrate, h0, ht, migrateGo, MIGRATIONS, set_user_version,
    m001_baseline, m002_enrichment_tracking, m003_content_hash,
    EXISTING_DB_STAMP_VERSION]

theorem c5_migrate_stamps_existing_witness :
    (migrate (⟨0, true, false, false, [], []⟩ : SchemaDB)).1 = 3 ∧
    (migrate (⟨0, true, false, false, [], []⟩ : SchemaDB)).2.ran = [2, 3] ∧
    (migrate (⟨0, true, false, false, [], []⟩ : SchemaDB)).2.versions_set =
      [1, 2, 3] ∧
    (migrate (⟨0, true, false, false, [], []⟩ : SchemaDB)).2.user_version =
      3 :=
  c5_migrate_stamps_existing ⟨0, true, false, false, [], []⟩ rfl rfl

theorem get_last_content_hash_append (logs : List ScrapeLogRow)
    (r : ScrapeLogRow)
    (hs : ((r.status == "success" || r.status == "unchanged") &&
      r.content_hash.isSome) = true) :
    get_last_content_hash (logs ++ [r]) = r.content_hash := by
  unfold get_last_content_hash
  rw [List.reverse_append]
  simp only [List.reverse_cons, List.reverse_nil, List.nil_append,
    List.singleton_append]
  rw [List.find?_cons_of_pos logs.reverse hs]

theorem scrape_unchanged (hashFn : String → String)
    (ingestCount : String → Nat) (html : String) (st : ScrapeState)
    (h : get_last_content_hash st.scrape_log = some (hashFn html)) :
    scrape hashFn ingestCount html st =
      { st with
        scrape_log := st.scrape_log ++
          [⟨st.next_log_id, "unchanged", some (hashFn html)⟩],
        next_log_id := st.next_log_id + 1 } := by
  simp [scrape, h]

/-- C2: when the store's last recorded content hash differs from the
digest of the fetched body, the first scrape appends a `success` log row
carrying the digest and ingests the parsed records; an immediately
following scrape of identical HTML appends exactly one `unchanged` log
row with the same digest and changes no record counts. -/
theorem c2_content_hash_short_circuit (hashFn : String → String)
    (ingestCount : String → Nat) (html : String) (st : ScrapeState)
    (h : get_last_content_hash st.scrape_log ≠ some (hashFn html)) :
    scrape hashFn ingestCount html st =
      { st with
        scrape_log := st.scrape_log ++
          [⟨st.next_log_id, "success", some (hashFn html)⟩],
        next_log_id := st.next_log_id + 1,
        records := st.records + ingestCount html } ∧
    scrape hashFn ingestCount html (scrape hashFn ingestCount html st) =
      { st with
        scrape_log := st.scrape_log ++
          [⟨st.next_log_id, "success", some (hashFn html)⟩,
           ⟨st.next_log_id + 1, "unchanged", some (hashFn html)⟩],
        next_log_id := st.next_log_id + 2,
        records := st.records + ingestCount html } := by
  have hb : (get_last_content_hash st.scrape_log ==
      some (hashFn html)) = false := beq_eq_false_iff_ne.mpr h
  have h1 : scrape hashFn ingestCount html st =
      { st with
        scrape_log := st.scrape_log ++
          [⟨st.next_log_id, "success", some (hashFn html)⟩],
        next_log_id := st.next_log_id + 1,
        records := st.records + ingestCount html } := by
    simp [scrape, hb]
  refine ⟨h1, ?_⟩
  rw [h1]
  have hlast : get_last_content_hash
      (st.scrape_log ++
        [⟨st.next_log_id, "success", some (hashFn html)⟩]) =
      some (hashFn html) :=
    get_last_content_hash_append st.scrape_log
      ⟨st.next_log_id, "success", some (hashFn html)⟩ (by simp)
  rw [scrape_unchanged hashFn ingestCount html _ hlast]
  simp [List.append_assoc]

theorem c2_content_hash_short_circuit_witness :
    get_last_content_hash
        (ScrapeState.scrape_log (⟨[], 1, 0⟩ : ScrapeState)) ≠
      some "page" ∧
    (scrape (fun s => s) (fun _ => 2) "page" (⟨[], 1, 0⟩ : ScrapeState) =
        (⟨[⟨1, "success", some "page"⟩], 2, 2⟩ : ScrapeState) ∧
      scrape (fun s => s) (fun _ => 2) "page"
          (scrape (fun s => s) (fun _ => 2) "page"
            (⟨[], 1, 0⟩ : ScrapeState)) =
        (⟨[⟨1, "success", some "page"⟩, ⟨2, "unchanged", some "page"⟩],
          3, 2⟩ : ScrapeState)) :=
  ⟨by decide,
    c2_content_hash_short_circuit (fun s => s) (fun _ => 2) "page"
      (⟨[], 1, 0⟩ : ScrapeState) (by decide)⟩

end Wslcb


